import Mathlib

/-!
Color: the RGB / HSL converter of `src/Color.cpp`.

A shallow embedding of the `Color` class, with two evaluations of its `float`
arithmetic.

* The exact evaluation (`_convertRGBtoHSL`, `_convertHSLtoRGB`, `setRGB`,
  `setHSL`): every `float` value is a rational number and the operations
  `+ - * /`, `fabs`, `fmod`, `fmax`, `fmin` are taken without rounding.  It is
  used for the properties that do not depend on rounding.
* The binary32 evaluation (`Binary32._convertRGBtoHSL`,
  `Binary32._convertHSLtoRGB`, `Binary32.setRGB`, `Binary32.setHSL`): each
  arithmetic operation is rounded as the source computes it.  It is used for the
  properties that rounding decides.

The unsigned 8-bit channels are natural numbers.

`Core.hpp`, which declares `ColorRGB_t`, `ColorHSL_t` and `Color`, is not among
the sources.  `Color.cpp` names the fields `red`, `green`, `blue` and `hue`,
`saturation`, `lightness`, but builds `ColorRGB_t` values with positional
initialisers `{a, b, c}`, whose meaning depends on the order in which the three
fields are declared.  That order is a parameter, `FieldOrder`, of the embedding.
-/

namespace ColorPalette

/-- The value type `ColorRGB_t`: three `uint8_t` channels, read by name. -/
structure ColorRGB_t where
  red : Nat
  green : Nat
  blue : Nat
  deriving DecidableEq, Repr

/-- The value type `ColorHSL_t`: three `float` fields, read by name. -/
structure ColorHSL_t where
  hue : ℚ
  saturation : ℚ
  lightness : ℚ
  deriving DecidableEq, Repr

/-- The object state of `Color`: the members `_hsl` and `_rgb`. -/
structure Color where
  _hsl : ColorHSL_t
  _rgb : ColorRGB_t
  deriving DecidableEq, Repr

/-- The order in which `Core.hpp` declares the three fields of `ColorRGB_t`;
the constructor name lists the first, second and third declared field. -/
inductive FieldOrder where
  | red_green_blue
  | red_blue_green
  | green_red_blue
  | green_blue_red
  | blue_red_green
  | blue_green_red
  deriving DecidableEq, Repr

/-- Modelled from the spec: the declaration of `ColorRGB_t` in `Core.hpp`, which
is missing.  The spec's data model lists the channels as red, green, blue. -/
def declaredOrder : FieldOrder := FieldOrder.red_green_blue

/-- The positional initialiser `{a, b, c}` of a `ColorRGB_t`: `a` goes to the
first declared field, `b` to the second, `c` to the third. -/
def ColorRGB_t.braces : FieldOrder → Nat → Nat → Nat → ColorRGB_t
  | FieldOrder.red_green_blue, a, b, c => { red := a, green := b, blue := c }
  | FieldOrder.red_blue_green, a, b, c => { red := a, blue := b, green := c }
  | FieldOrder.green_red_blue, a, b, c => { green := a, red := b, blue := c }
  | FieldOrder.green_blue_red, a, b, c => { green := a, blue := b, red := c }
  | FieldOrder.blue_red_green, a, b, c => { blue := a, red := b, green := c }
  | FieldOrder.blue_green_red, a, b, c => { blue := a, green := b, red := c }

/-- Modelled from the spec: the declaration of `ColorHSL_t` in `Core.hpp`, which
is missing.  The positional initialiser `{a, b, c}` of a `ColorHSL_t`, with the
fields declared as the spec's data model lists them: hue, saturation,
lightness. -/
def ColorHSL_t.braces (a b c : ℚ) : ColorHSL_t :=
  { hue := a, saturation := b, lightness := c }

/-- Truncation toward zero, the rounding of a floating to integer conversion. -/
def trunc (q : ℚ) : ℤ := if 0 ≤ q then ⌊q⌋ else ⌈q⌉

/-- The C library `fmod`: `x - n * y` with `n` the quotient `x / y` truncated
toward zero, so the result has the sign of `x`. -/
def fmod (x y : ℚ) : ℚ := x - (trunc (x / y) : ℚ) * y

/-- The C library `fabs`. -/
def fabs (x : ℚ) : ℚ := |x|

/-- The C library `fmax`. -/
def fmax (x y : ℚ) : ℚ := max x y

/-- The C library `fmin`. -/
def fmin (x y : ℚ) : ℚ := min x y

/-- The conversion `static_cast<uint8_t>(q)`: the value is truncated toward
zero; the behaviour is undefined (`none`) when the truncated value is not in
`[0, 255]`. -/
def toUInt8 (q : ℚ) : Option Nat :=
  if 0 ≤ trunc q ∧ trunc q ≤ 255 then some (trunc q).toNat else none

/-- `UINT8_MAX`. -/
def UINT8_MAX : ℚ := 255

/-- `Color::Color(void)`: `_hsl({0.0, 0.0, 0.0})`, `_rgb({0, 0, 0})`. -/
def Color.init (o : FieldOrder) : Color :=
  { _hsl := ColorHSL_t.braces 0 0 0, _rgb := ColorRGB_t.braces o 0 0 0 }

/-- The hue assigned by `_convertRGBtoHSL`; `old` is the hue stored before the
call, which is kept when no assignment is reached. -/
def hueOf (old rn gn bn : ℚ) : ℚ :=
  let max := fmax rn (fmax bn gn)
  let min := fmin rn (fmin bn gn)
  let delta := max - min
  if delta > 0 then
    if max = rn then 60 * fmod ((gn - bn) / delta) 6
    else if max = gn then 60 * ((bn - rn) / delta + 2)
    else if max = bn then 60 * ((rn - gn) / delta + 4)
    else old
  else 0

/-- `Color::_convertRGBtoHSL`: recomputes `_hsl` from `_rgb`; the exact
evaluation (`Binary32._convertRGBtoHSL` is the rounded one). -/
def _convertRGBtoHSL (c : Color) : Color :=
  let rn : ℚ := (c._rgb.red : ℚ) / UINT8_MAX
  let bn : ℚ := (c._rgb.blue : ℚ) / UINT8_MAX
  let gn : ℚ := (c._rgb.green : ℚ) / UINT8_MAX
  let max := fmax rn (fmax bn gn)
  let min := fmin rn (fmin bn gn)
  let delta := max - min
  let hue := hueOf c._hsl.hue rn gn bn
  let lightness := (max + min) / 2
  let saturation :=
    if lightness > 0 ∧ lightness < 1 then delta / (1 - fabs (2 * lightness - 1))
    else 0
  { c with _hsl := { hue := hue, saturation := saturation, lightness := lightness } }

/-- The sector selection of `_convertHSLtoRGB`: the values of `tr`, `tg`, `tb`,
which stay uninitialised (`none`) when none of the six conditions holds. -/
def sector (h c x : ℚ) : Option (ℚ × ℚ × ℚ) :=
  if h ≥ 0 ∧ h < 1 then some (c, x, 0)
  else if h ≥ 1 ∧ h < 2 then some (x, c, 0)
  else if h ≥ 2 ∧ h < 3 then some (0, c, x)
  else if h ≥ 3 ∧ h < 4 then some (0, x, c)
  else if h ≥ 4 ∧ h < 5 then some (x, 0, c)
  else if h ≥ 5 ∧ h < 6 then some (c, 0, x)
  else none

/-- The chroma `c` of `_convertHSLtoRGB`. -/
def chroma (hsl : ColorHSL_t) : ℚ :=
  (1 - fabs (2 * hsl.lightness - 1)) * hsl.saturation

/-- The value `x` of `_convertHSLtoRGB`. -/
def secondary (hsl : ColorHSL_t) : ℚ :=
  chroma hsl * (1 - fabs (fmod (hsl.hue / 60) 2 - 1))

/-- The offset `m` of `_convertHSLtoRGB`. -/
def offset (hsl : ColorHSL_t) : ℚ := hsl.lightness - chroma hsl / 2

/-- `Color::_convertHSLtoRGB`: recomputes `_rgb` from `_hsl`; the exact
evaluation (`Binary32._convertHSLtoRGB` is the rounded one).  The result is
`none` where the behaviour is undefined: `tr`, `tg`, `tb` read uninitialised, or
a channel value that does not fit `uint8_t`. -/
def _convertHSLtoRGB (o : FieldOrder) (c : Color) : Option Color :=
  let ch := chroma c._hsl
  let h := c._hsl.hue / 60
  let x := secondary c._hsl
  match sector h ch x with
  | none => none
  | some (tr, tg, tb) =>
    let m := offset c._hsl
    match toUInt8 ((tr + m) * 255), toUInt8 ((tg + m) * 255), toUInt8 ((tb + m) * 255) with
    | some r, some g, some b => some { c with _rgb := ColorRGB_t.braces o r g b }
    | _, _, _ => none

/-- `Color::setRGB`: `_rgb = {rgb.red, rgb.blue, rgb.green}`, then
`_convertRGBtoHSL()`. -/
def setRGB (o : FieldOrder) (c : Color) (rgb : ColorRGB_t) : Color :=
  _convertRGBtoHSL { c with _rgb := ColorRGB_t.braces o rgb.red rgb.blue rgb.green }

/-- `Color::setHSL`: `_hsl = {hsl.hue, hsl.saturation, hsl.lightness}`, then
`_convertHSLtoRGB()`. -/
def setHSL (o : FieldOrder) (c : Color) (hsl : ColorHSL_t) : Option Color :=
  _convertHSLtoRGB o
    { c with _hsl := ColorHSL_t.braces hsl.hue hsl.saturation hsl.lightness }

/-- `Color::getRGB`, a `const` method: the value returned, and the object after
the call. -/
def getRGB (c : Color) : ColorRGB_t × Color := (c._rgb, c)

/-- `Color::getHSL`, a `const` method: the value returned, and the object after
the call. -/
def getHSL (c : Color) : ColorHSL_t × Color := (c._hsl, c)

/-- The caller's obligation on the argument of `setHSL`: hue in `[0, 360)`,
saturation and lightness in `[0, 1]`. -/
def ColorHSL_t.InDomain (hsl : ColorHSL_t) : Prop :=
  (0 ≤ hsl.hue ∧ hsl.hue < 360) ∧ (0 ≤ hsl.saturation ∧ hsl.saturation ≤ 1) ∧
    (0 ≤ hsl.lightness ∧ hsl.lightness ≤ 1)

/-- The round trip `setRGB(rgb)`, `h = getHSL()`, `setHSL(h)`, `getRGB()` from
the state `c`: the triple read at the end. -/
def roundTrip (o : FieldOrder) (c : Color) (rgb : ColorRGB_t) : Option ColorRGB_t :=
  let c1 := setRGB o c rgb
  let r1 := getHSL c1
  (setHSL o r1.2 r1.1).map (fun c2 => (getRGB c2).1)

/-- Two channel values differ by at most 1. -/
def near (a b : Nat) : Prop := a ≤ b + 1 ∧ b ≤ a + 1

/-- The round trip from `c` returns a triple within 1 of `rgb` in each channel. -/
def RoundTripOK (o : FieldOrder) (c : Color) (rgb : ColorRGB_t) : Prop :=
  ∃ out, roundTrip o c rgb = some out ∧
    near out.red rgb.red ∧ near out.green rgb.green ∧ near out.blue rgb.blue

/-- The sum `red + green + blue` of a triple. -/
def ColorRGB_t.sum (rgb : ColorRGB_t) : Nat := rgb.red + rgb.green + rgb.blue

/-- A division `a / b` of the source, with no value when the divisor is zero. -/
def checkedDiv (a b : ℚ) : Option ℚ := if b = 0 then none else some (a / b)

/-- The hue calculation of `_convertRGBtoHSL`, as `hueOf`, with each division
by `delta` checked. -/
def hueChecked (old rn gn bn : ℚ) : Option ℚ :=
  let max := fmax rn (fmax bn gn)
  let min := fmin rn (fmin bn gn)
  let delta := max - min
  if delta > 0 then
    if max = rn then (checkedDiv (gn - bn) delta).map (fun q => 60 * fmod q 6)
    else if max = gn then (checkedDiv (bn - rn) delta).map (fun q => 60 * (q + 2))
    else if max = bn then (checkedDiv (rn - gn) delta).map (fun q => 60 * (q + 4))
    else some old
  else some 0

/-- The saturation calculation of `_convertRGBtoHSL`, with the division by
`1 - fabs (2 * lightness - 1)` checked. -/
def saturationChecked (lightness delta : ℚ) : Option ℚ :=
  if lightness > 0 ∧ lightness < 1 then checkedDiv delta (1 - fabs (2 * lightness - 1))
  else some 0

/-- `Color::_convertRGBtoHSL` with the divisions by `delta` and by
`1 - fabs (2 * lightness - 1)` checked: `none` when one of them divides by
zero, and else the state that `_convertRGBtoHSL` computes. -/
def convertRGBtoHSLChecked (c : Color) : Option Color :=
  let rn : ℚ := (c._rgb.red : ℚ) / UINT8_MAX
  let bn : ℚ := (c._rgb.blue : ℚ) / UINT8_MAX
  let gn : ℚ := (c._rgb.green : ℚ) / UINT8_MAX
  let max := fmax rn (fmax bn gn)
  let min := fmin rn (fmin bn gn)
  let delta := max - min
  let lightness := (max + min) / 2
  match hueChecked c._hsl.hue rn gn bn, saturationChecked lightness delta with
  | some hue, some saturation =>
    some { c with _hsl := { hue := hue, saturation := saturation, lightness := lightness } }
  | _, _ => none

/-- The branch `else _hsl.saturation = 0` of `_convertRGBtoHSL` is the one taken
at the lightness `l`: the condition `l > 0.0 && l < 1.0` fails. -/
def SaturationElse (l : ℚ) : Prop := ¬ (l > 0 ∧ l < 1)

/-- The largest normalised channel of an RGB triple. -/
def ColorRGB_t.maxn (rgb : ColorRGB_t) : ℚ :=
  fmax ((rgb.red : ℚ) / UINT8_MAX) (fmax ((rgb.blue : ℚ) / UINT8_MAX) ((rgb.green : ℚ) / UINT8_MAX))

/-- The smallest normalised channel of an RGB triple. -/
def ColorRGB_t.minn (rgb : ColorRGB_t) : ℚ :=
  fmin ((rgb.red : ℚ) / UINT8_MAX) (fmin ((rgb.blue : ℚ) / UINT8_MAX) ((rgb.green : ℚ) / UINT8_MAX))

/-- The channels of an RGB triple are in [0, 255]. -/
def ColorRGB_t.InRange (rgb : ColorRGB_t) : Prop :=
  rgb.red ≤ 255 ∧ rgb.green ≤ 255 ∧ rgb.blue ≤ 255

instance (rgb : ColorRGB_t) : Decidable rgb.InRange := by
  unfold ColorRGB_t.InRange
  infer_instance

instance (hsl : ColorHSL_t) : Decidable hsl.InDomain := by
  unfold ColorHSL_t.InDomain
  infer_instance

/-! ## Evaluation in binary32

The conversions with the rounding of the source's `float` arithmetic.  The
header that declares the types is missing: the fields of `ColorHSL_t` are taken
to be `float`, and `fabs`, `fmod`, `fmax`, `fmin` to be the overloads of
`<cmath>` (a `float` result for `float` arguments, a `double` result when an
argument is an `int` or a `double`).  Each arithmetic operation on `float`
operands rounds to binary32 and each operation with a `double` operand rounds
to binary64, to nearest with ties to even; `fabs`, `fmod`, `fmax`, `fmin` and
the comparisons are exact.  Overflow to infinity is not reached by the values
of the conversions and is not modelled. -/

/-- The binary logarithm of `n`, rounded down, by halving at most `fuel` times. -/
def ilog2Aux : Nat → Nat → Nat
  | 0, _ => 0
  | fuel + 1, n => if 2 ≤ n then ilog2Aux fuel (n / 2) + 1 else 0

/-- The binary logarithm of a positive `n`, rounded down: `2 ^ ilog2 n ≤ n < 2 ^ (ilog2 n + 1)`. -/
def ilog2 (n : Nat) : Nat := ilog2Aux n n

/-- The binary exponent of a non-zero rational `x`: the integer `e` with
`2 ^ e ≤ |x| < 2 ^ (e + 1)`. -/
def expo (x : ℚ) : ℤ :=
  if x.num.natAbs * 2 ^ ilog2 x.den < x.den * 2 ^ ilog2 x.num.natAbs then
    (ilog2 x.num.natAbs : ℤ) - ilog2 x.den - 1
  else (ilog2 x.num.natAbs : ℤ) - ilog2 x.den

/-- Rounding to the nearest integer, ties to even. -/
def roundEven (y : ℚ) : ℤ :=
  if y - ⌊y⌋ < 1 / 2 then ⌊y⌋
  else if 1 / 2 < y - ⌊y⌋ then ⌊y⌋ + 1
  else if ⌊y⌋ % 2 = 0 then ⌊y⌋ else ⌊y⌋ + 1

/-- The spacing around `x` of the binary floating-point numbers with `p` digits
and least normal exponent `emin`. -/
def ulp (p : ℕ) (emin : ℤ) (x : ℚ) : ℚ := (2 : ℚ) ^ (max (expo x) emin - ((p : ℤ) - 1))

/-- Rounding to nearest, ties to even, to the binary floating-point numbers with
`p` digits and least normal exponent `emin`. -/
def roundTo (p : ℕ) (emin : ℤ) (x : ℚ) : ℚ :=
  if x = 0 then 0 else (roundEven (x / ulp p emin x) : ℚ) * ulp p emin x

/-- Rounding to `float` (binary32). -/
def fl32 (x : ℚ) : ℚ := roundTo 24 (-126) x

/-- Rounding to `double` (binary64). -/
def fl64 (x : ℚ) : ℚ := roundTo 53 (-1022) x

/-- The rational `x` is a `float` value. -/
def IsFloat32 (x : ℚ) : Prop := fl32 x = x

instance (x : ℚ) : Decidable (IsFloat32 x) := by
  unfold IsFloat32
  infer_instance

/-- The three fields of an HSL value are `float` values. -/
def ColorHSL_t.IsFloat32 (hsl : ColorHSL_t) : Prop :=
  ColorPalette.IsFloat32 hsl.hue ∧ ColorPalette.IsFloat32 hsl.saturation ∧
    ColorPalette.IsFloat32 hsl.lightness

instance (hsl : ColorHSL_t) : Decidable hsl.IsFloat32 := by
  unfold ColorHSL_t.IsFloat32
  infer_instance

namespace Binary32

/-- The chroma `c` of `_convertHSLtoRGB`, in binary32:
`(1 - fabs(2 * _hsl.lightness - 1)) * _hsl.saturation`. -/
def chroma (hsl : ColorHSL_t) : ℚ :=
  fl32 (fl32 (1 - fabs (fl32 (fl32 (2 * hsl.lightness) - 1))) * hsl.saturation)

/-- The value `h` of `_convertHSLtoRGB`, in binary32: `_hsl.hue / 60`. -/
def sectorArg (hsl : ColorHSL_t) : ℚ := fl32 (hsl.hue / 60)

/-- The factor `1 - fabs(fmod(h, 2) - 1)` of `_convertHSLtoRGB`, a `double`. -/
def factor (hsl : ColorHSL_t) : ℚ :=
  fl64 (1 - fabs (fl64 (fmod (sectorArg hsl) 2 - 1)))

/-- The value `x` of `_convertHSLtoRGB`: the `double` product
`c * (1 - fabs(fmod(h, 2) - 1))`, stored in a `float`. -/
def secondary (hsl : ColorHSL_t) : ℚ := fl32 (fl64 (chroma hsl * factor hsl))

/-- The offset `m` of `_convertHSLtoRGB`, in binary32: `_hsl.lightness - (c / 2)`. -/
def offset (hsl : ColorHSL_t) : ℚ := fl32 (hsl.lightness - fl32 (chroma hsl / 2))

/-- The value `(t + m) * 255` of `_convertHSLtoRGB`, in binary32, before the
conversion to `uint8_t`. -/
def channel (t m : ℚ) : ℚ := fl32 (fl32 (t + m) * 255)

/-- `Color::_convertHSLtoRGB` in binary32; `none` where the behaviour is
undefined, as in the exact model. -/
def _convertHSLtoRGB (o : FieldOrder) (c : Color) : Option Color :=
  match sector (sectorArg c._hsl) (chroma c._hsl) (secondary c._hsl) with
  | none => none
  | some (tr, tg, tb) =>
    let m := offset c._hsl
    match toUInt8 (channel tr m), toUInt8 (channel tg m), toUInt8 (channel tb m) with
    | some r, some g, some b => some { c with _rgb := ColorRGB_t.braces o r g b }
    | _, _, _ => none

/-- `Color::setHSL` in binary32. -/
def setHSL (o : FieldOrder) (c : Color) (hsl : ColorHSL_t) : Option Color :=
  _convertHSLtoRGB o
    { c with _hsl := ColorHSL_t.braces hsl.hue hsl.saturation hsl.lightness }

/-- The divisor `1 - fabs(2 * lightness - 1)` of the saturation, in binary32. -/
def divisor (lightness : ℚ) : ℚ := fl32 (1 - fabs (fl32 (fl32 (2 * lightness) - 1)))

/-- The lightness assigned by `_convertRGBtoHSL`, in binary32: `(max + min) / 2`. -/
def lightnessOf (max min : ℚ) : ℚ := fl32 (fl32 (max + min) / 2)

/-- The saturation assigned by `_convertRGBtoHSL`, in binary32, from `max` and
`min`: `delta / (1 - fabs(2 * lightness - 1))` when `0 < lightness < 1`, else 0. -/
def saturationOf (max min : ℚ) : ℚ :=
  if lightnessOf max min > 0 ∧ lightnessOf max min < 1 then
    fl32 (fl32 (max - min) / divisor (lightnessOf max min))
  else 0

/-- The hue assigned by `_convertRGBtoHSL`, in binary32; the quotients are
`float`, the sums with `2.0`, `4.0` and the products with 60 are `double`, and
the result is stored in a `float`. -/
def hueOf (old rn gn bn : ℚ) : ℚ :=
  let max := fmax rn (fmax bn gn)
  let min := fmin rn (fmin bn gn)
  let delta := fl32 (max - min)
  if delta > 0 then
    if max = rn then fl32 (fl64 (60 * fmod (fl32 (fl32 (gn - bn) / delta)) 6))
    else if max = gn then fl32 (fl64 (60 * fl64 (fl32 (fl32 (bn - rn) / delta) + 2)))
    else if max = bn then fl32 (fl64 (60 * fl64 (fl32 (fl32 (rn - gn) / delta) + 4)))
    else old
  else 0

/-- A channel normalised in binary32: `static_cast<float>(v) / UINT8_MAX`. -/
def normalise (v : Nat) : ℚ := fl32 ((v : ℚ) / UINT8_MAX)

/-- `Color::_convertRGBtoHSL` in binary32. -/
def _convertRGBtoHSL (c : Color) : Color :=
  let rn : ℚ := normalise c._rgb.red
  let bn : ℚ := normalise c._rgb.blue
  let gn : ℚ := normalise c._rgb.green
  let max := fmax rn (fmax bn gn)
  let min := fmin rn (fmin bn gn)
  { c with _hsl :=
    { hue := hueOf c._hsl.hue rn gn bn
      saturation := saturationOf max min
      lightness := lightnessOf max min } }

/-- `Color::setRGB` in binary32. -/
def setRGB (o : FieldOrder) (c : Color) (rgb : ColorRGB_t) : Color :=
  _convertRGBtoHSL { c with _rgb := ColorRGB_t.braces o rgb.red rgb.blue rgb.green }

end Binary32

/-- The largest channel normalised in binary32. -/
def Binary32.maxn (rgb : ColorRGB_t) : ℚ :=
  fmax (Binary32.normalise rgb.red)
    (fmax (Binary32.normalise rgb.blue) (Binary32.normalise rgb.green))

/-- The smallest channel normalised in binary32. -/
def Binary32.minn (rgb : ColorRGB_t) : ℚ :=
  fmin (Binary32.normalise rgb.red)
    (fmin (Binary32.normalise rgb.blue) (Binary32.normalise rgb.green))

/-- The channels that `setHSL` stores in binary32 from the state `c` are `f`
applied to the computed `(provisional + m) * 255`, the red channel from `tr`,
the green channel from `tg` and the blue channel from `tb` of the sector
triple. -/
def Binary32.ChannelsBy (f : ℚ → ℤ) (o : FieldOrder) (c : Color) (hsl : ColorHSL_t) : Prop :=
  ∃ tr tg tb,
    sector (Binary32.sectorArg hsl) (Binary32.chroma hsl) (Binary32.secondary hsl) =
      some (tr, tg, tb) ∧
    (Binary32.setHSL o c hsl).map (fun c2 => (getRGB c2).1) = some
      { red := (f (Binary32.channel tr (Binary32.offset hsl))).toNat
        green := (f (Binary32.channel tg (Binary32.offset hsl))).toNat
        blue := (f (Binary32.channel tb (Binary32.offset hsl))).toNat }

/-- The sum of the channels that `setHSL` stores in binary32 does not fall from
the lightness `l1` to the lightness `l2`. -/
def Binary32.SumMonotoneAt (o : FieldOrder) (c1 c2 : Color) (h s l1 l2 : ℚ) : Prop :=
  ∃ a b, Binary32.setHSL o c1 ⟨h, s, l1⟩ = some a ∧ Binary32.setHSL o c2 ⟨h, s, l2⟩ = some b ∧
    (getRGB a).1.sum ≤ (getRGB b).1.sum

/-! ## Independence of the prior state -/

theorem fmax3_mem (a b c : ℚ) :
    fmax a (fmax b c) = a ∨ fmax a (fmax b c) = c ∨ fmax a (fmax b c) = b := by
  unfold fmax
  rcases max_choice a (max b c) with h | h
  · exact Or.inl h
  · rcases max_choice b c with h2 | h2
    · exact Or.inr (Or.inr (by rw [h, h2]))
    · exact Or.inr (Or.inl (by rw [h, h2]))

theorem hueOf_old (old old2 rn gn bn : ℚ) : hueOf old rn gn bn = hueOf old2 rn gn bn := by
  unfold hueOf
  rcases fmax3_mem rn bn gn with h | h | h
  · simp only [h, if_true]
  · by_cases h1 : fmax rn (fmax bn gn) = rn
    · simp only [h1, if_true]
    · simp only [h1, if_false, h, if_true]
  · by_cases h1 : fmax rn (fmax bn gn) = rn
    · simp only [h1, if_true]
    · by_cases h2 : fmax rn (fmax bn gn) = gn
      · simp only [h1, if_false, h2, if_true]
      · simp only [h1, if_false, h2, h, if_true]

theorem setRGB_prior (o : FieldOrder) (c c2 : Color) (rgb : ColorRGB_t) :
    setRGB o c rgb = setRGB o c2 rgb := by
  simp only [setRGB, _convertRGBtoHSL]
  rw [hueOf_old c._hsl.hue c2._hsl.hue]

theorem setHSL_prior (o : FieldOrder) (c c2 : Color) (hsl : ColorHSL_t) :
    setHSL o c hsl = setHSL o c2 hsl := by
  simp only [setHSL, _convertHSLtoRGB]

theorem roundTrip_prior (o : FieldOrder) (c c2 : Color) (rgb : ColorRGB_t) :
    roundTrip o c rgb = roundTrip o c2 rgb := by
  simp only [roundTrip]
  rw [setRGB_prior o c c2]


/-! ## Bounds inside the HSL to RGB conversion -/

theorem trunc_mono {a b : ℚ} (h : a ≤ b) : trunc a ≤ trunc b := by
  unfold trunc
  split_ifs with ha hb hb
  · exact Int.floor_mono h
  · exact absurd (le_trans ha h) hb
  · have h1 : ⌈a⌉ ≤ 0 := Int.ceil_le.mpr (by push_cast; exact le_of_lt (not_le.mp ha))
    have h2 : (0 : ℤ) ≤ ⌊b⌋ := Int.floor_nonneg.mpr hb
    exact le_trans h1 h2
  · exact Int.ceil_mono h

theorem trunc_of_nonneg {a : ℚ} (h : 0 ≤ a) : trunc a = ⌊a⌋ := by
  simp [trunc, h]

theorem toUInt8_of_unit {v : ℚ} (h0 : 0 ≤ v) (h1 : v ≤ 1) :
    toUInt8 (v * 255) = some (trunc (v * 255)).toNat := by
  have hv : 0 ≤ v * 255 := by positivity
  have ht0 : 0 ≤ trunc (v * 255) := by
    rw [trunc_of_nonneg hv]; exact Int.floor_nonneg.mpr hv
  have ht1 : trunc (v * 255) ≤ 255 := by
    rw [trunc_of_nonneg hv]
    have : v * 255 ≤ ((255 : ℤ) : ℚ) := by push_cast; linarith
    have h3 : ⌊v * 255⌋ ≤ ⌊((255 : ℤ) : ℚ)⌋ := Int.floor_mono this
    rwa [Int.floor_intCast] at h3
  simp [toUInt8, ht0, ht1]

theorem fmod_two_bounds {h : ℚ} (h0 : 0 ≤ h) : 0 ≤ fmod h 2 ∧ fmod h 2 < 2 := by
  have hh : 0 ≤ h / 2 := by positivity
  unfold fmod
  rw [trunc_of_nonneg hh]
  have h1 := Int.floor_le (h / 2)
  have h2 := Int.lt_floor_add_one (h / 2)
  constructor <;> linarith

theorem fabs_fmod_le {h : ℚ} (h0 : 0 ≤ h) : 0 ≤ 1 - fabs (fmod h 2 - 1) ∧ 1 - fabs (fmod h 2 - 1) ≤ 1 := by
  obtain ⟨h1, h2⟩ := fmod_two_bounds h0
  unfold fabs
  have : |fmod h 2 - 1| ≤ 1 := abs_le.mpr ⟨by linarith, by linarith⟩
  exact ⟨by linarith, by linarith [abs_nonneg (fmod h 2 - 1)]⟩

theorem chroma_bounds {hsl : ColorHSL_t} (hd : hsl.InDomain) :
    0 ≤ chroma hsl ∧ chroma hsl ≤ 2 * hsl.lightness ∧ chroma hsl ≤ 2 - 2 * hsl.lightness := by
  obtain ⟨_, ⟨hs0, hs1⟩, hl0, hl1⟩ := hd
  unfold chroma fabs
  have ha : |2 * hsl.lightness - 1| ≤ 1 := abs_le.mpr ⟨by linarith, by linarith⟩
  have hb : 0 ≤ 1 - |2 * hsl.lightness - 1| := by linarith
  have hc : 1 - |2 * hsl.lightness - 1| ≤ 2 * hsl.lightness := by
    have := neg_abs_le (2 * hsl.lightness - 1); linarith
  have hd : 1 - |2 * hsl.lightness - 1| ≤ 2 - 2 * hsl.lightness := by
    have := le_abs_self (2 * hsl.lightness - 1); linarith
  have he : (1 - |2 * hsl.lightness - 1|) * hsl.saturation ≤ 1 - |2 * hsl.lightness - 1| := by
    nlinarith
  exact ⟨mul_nonneg hb hs0, by linarith, by linarith⟩

theorem secondary_bounds {hsl : ColorHSL_t} (hd : hsl.InDomain) :
    0 ≤ secondary hsl ∧ secondary hsl ≤ chroma hsl := by
  obtain ⟨hc0, _, _⟩ := chroma_bounds hd
  have hh : 0 ≤ hsl.hue / 60 := by have := hd.1.1; positivity
  obtain ⟨k0, k1⟩ := fabs_fmod_le hh
  unfold secondary
  exact ⟨mul_nonneg hc0 k0, by nlinarith⟩


theorem sector_entries {h c x tr tg tb : ℚ} (hs : sector h c x = some (tr, tg, tb)) :
    (tr = c ∨ tr = x ∨ tr = 0) ∧ (tg = c ∨ tg = x ∨ tg = 0) ∧ (tb = c ∨ tb = x ∨ tb = 0) := by
  unfold sector at hs
  split_ifs at hs <;> simp only [Option.some.injEq, Prod.mk.injEq] at hs <;>
    obtain ⟨rfl, rfl, rfl⟩ := hs <;> simp

theorem sector_isSome {h : ℚ} (c x : ℚ) (h0 : 0 ≤ h) (h6 : h < 6) :
    ∃ t, sector h c x = some t := by
  unfold sector
  split_ifs with h1 h2 h3 h4 h5 h6
  · exact ⟨_, rfl⟩
  · exact ⟨_, rfl⟩
  · exact ⟨_, rfl⟩
  · exact ⟨_, rfl⟩
  · exact ⟨_, rfl⟩
  · exact ⟨_, rfl⟩
  · exfalso
    simp only [ge_iff_le, not_and, not_lt] at *
    linarith [h1 h0, h2 (h1 h0), h3 (h2 (h1 h0)), h4 (h3 (h2 (h1 h0))),
      h5 (h4 (h3 (h2 (h1 h0)))), h6 (h5 (h4 (h3 (h2 (h1 h0)))))]

theorem entry_unit {hsl : ColorHSL_t} (hd : hsl.InDomain) {t : ℚ}
    (ht : t = chroma hsl ∨ t = secondary hsl ∨ t = 0) :
    0 ≤ t + offset hsl ∧ t + offset hsl ≤ 1 := by
  obtain ⟨c0, c1, c2⟩ := chroma_bounds hd
  obtain ⟨x0, x1⟩ := secondary_bounds hd
  unfold offset
  rcases ht with rfl | rfl | rfl <;> constructor <;> linarith

theorem braces_sum (o : FieldOrder) (a b c : Nat) :
    (ColorRGB_t.braces o a b c).red + (ColorRGB_t.braces o a b c).green +
      (ColorRGB_t.braces o a b c).blue = a + b + c := by
  cases o <;> simp only [ColorRGB_t.braces] <;> omega

/-- What `setHSL` stores for an argument in the domain: the argument itself, and
the three truncated channel values in the positions of `{..., ..., ...}`. -/
theorem setHSL_eq (o : FieldOrder) (c : Color) {hsl : ColorHSL_t} (hd : hsl.InDomain)
    {tr tg tb : ℚ}
    (hs : sector (hsl.hue / 60) (chroma hsl) (secondary hsl) = some (tr, tg, tb)) :
    setHSL o c hsl = some
      { _hsl := hsl
        _rgb := ColorRGB_t.braces o (trunc ((tr + offset hsl) * 255)).toNat
          (trunc ((tg + offset hsl) * 255)).toNat (trunc ((tb + offset hsl) * 255)).toNat } := by
  obtain ⟨er, eg, eb⟩ := sector_entries hs
  obtain ⟨r0, r1⟩ := entry_unit hd er
  obtain ⟨g0, g1⟩ := entry_unit hd eg
  obtain ⟨b0, b1⟩ := entry_unit hd eb
  simp only [setHSL, _convertHSLtoRGB, ColorHSL_t.braces, hs, toUInt8_of_unit r0 r1,
    toUInt8_of_unit g0 g1, toUInt8_of_unit b0 b1]


/-! ## Monotonicity in the lightness -/

theorem sector_scale (h c k : ℚ) :
    sector h c (c * k) = (sector h 1 k).map (fun a => (c * a.1, c * a.2.1, c * a.2.2)) := by
  unfold sector
  split_ifs <;> simp

theorem chroma_lipschitz (h s l1 l2 : ℚ) (hs0 : 0 ≤ s) (hs1 : s ≤ 1) (hl : l1 ≤ l2) :
    |chroma ⟨h, s, l2⟩ - chroma ⟨h, s, l1⟩| ≤ 2 * (l2 - l1) := by
  unfold chroma fabs
  have e : (1 - |2 * l2 - 1|) * s - (1 - |2 * l1 - 1|) * s = (|2 * l1 - 1| - |2 * l2 - 1|) * s := by
    ring
  simp only [e]
  rw [abs_mul, abs_of_nonneg hs0]
  have h1 : |(|2 * l1 - 1| - |2 * l2 - 1|)| ≤ |(2 * l1 - 1) - (2 * l2 - 1)| :=
    abs_abs_sub_abs_le_abs_sub _ _
  have h2 : |(2 * l1 - 1) - (2 * l2 - 1)| = 2 * (l2 - l1) := by
    rw [abs_of_nonpos (by linarith)]; ring
  rw [h2] at h1
  have h3 : 0 ≤ |(|2 * l1 - 1| - |2 * l2 - 1|)| := abs_nonneg _
  nlinarith

theorem channel_mono (h s l1 l2 a : ℚ) (hs0 : 0 ≤ s) (hs1 : s ≤ 1) (hl : l1 ≤ l2)
    (ha0 : 0 ≤ a) (ha1 : a ≤ 1) :
    chroma ⟨h, s, l1⟩ * a + offset ⟨h, s, l1⟩ ≤ chroma ⟨h, s, l2⟩ * a + offset ⟨h, s, l2⟩ := by
  have hL := chroma_lipschitz h s l1 l2 hs0 hs1 hl
  obtain ⟨hL1, hL2⟩ := abs_le.mp hL
  simp only [offset]
  have e : chroma ⟨h, s, l2⟩ * a + (l2 - chroma ⟨h, s, l2⟩ / 2) -
      (chroma ⟨h, s, l1⟩ * a + (l1 - chroma ⟨h, s, l1⟩ / 2)) =
      (l2 - l1) + (chroma ⟨h, s, l2⟩ - chroma ⟨h, s, l1⟩) * (a - 1 / 2) := by ring
  have hb : |(chroma ⟨h, s, l2⟩ - chroma ⟨h, s, l1⟩) * (a - 1 / 2)| ≤ (2 * (l2 - l1)) * (1 / 2) := by
    rw [abs_mul]
    exact mul_le_mul hL (abs_le.mpr ⟨by linarith, by linarith⟩) (abs_nonneg _) (by linarith)
  have := (abs_le.mp hb).1
  linarith

theorem toNat_trunc_mono {a b : ℚ} (h : a ≤ b) :
    (trunc (a * 255)).toNat ≤ (trunc (b * 255)).toNat :=
  Int.toNat_le_toNat (trunc_mono (by linarith))

theorem sector_unit_entries {h k a1 a2 a3 : ℚ} (k0 : 0 ≤ k) (k1 : k ≤ 1)
    (hs : sector h 1 k = some (a1, a2, a3)) :
    (0 ≤ a1 ∧ a1 ≤ 1) ∧ (0 ≤ a2 ∧ a2 ≤ 1) ∧ (0 ≤ a3 ∧ a3 ≤ 1) := by
  obtain ⟨e1, e2, e3⟩ := sector_entries hs
  refine ⟨?_, ?_, ?_⟩
  · rcases e1 with rfl | rfl | rfl <;> constructor <;> linarith
  · rcases e2 with rfl | rfl | rfl <;> constructor <;> linarith
  · rcases e3 with rfl | rfl | rfl <;> constructor <;> linarith

/-- The sum of the channels stored by `setHSL` for an argument in the domain. -/
theorem setHSL_sum (o : FieldOrder) (c : Color) (h s l : ℚ) (hd : ColorHSL_t.InDomain ⟨h, s, l⟩)
    {a1 a2 a3 : ℚ}
    (hs : sector (h / 60) 1 (1 - fabs (fmod (h / 60) 2 - 1)) = some (a1, a2, a3)) :
    ∃ c2, setHSL o c ⟨h, s, l⟩ = some c2 ∧
      c2._rgb.red + c2._rgb.green + c2._rgb.blue =
        (trunc ((chroma ⟨h, s, l⟩ * a1 + offset ⟨h, s, l⟩) * 255)).toNat +
        (trunc ((chroma ⟨h, s, l⟩ * a2 + offset ⟨h, s, l⟩) * 255)).toNat +
        (trunc ((chroma ⟨h, s, l⟩ * a3 + offset ⟨h, s, l⟩) * 255)).toNat := by
  have hsec : sector ((⟨h, s, l⟩ : ColorHSL_t).hue / 60) (chroma ⟨h, s, l⟩) (secondary ⟨h, s, l⟩) =
      some (chroma ⟨h, s, l⟩ * a1, chroma ⟨h, s, l⟩ * a2, chroma ⟨h, s, l⟩ * a3) := by
    simp only [secondary]
    rw [sector_scale, hs]
    rfl
  refine ⟨_, setHSL_eq o c hd hsec, ?_⟩
  exact braces_sum o _ _ _


/-- The two positional initialisers of `Color.cpp` disagree: under no declaration
order of `ColorRGB_t` does `setRGB` store its argument while `setHSL` stores
red for hue 0 and green for hue 120. -/
theorem initialisers_disagree (o : FieldOrder) :
    ¬ ((getRGB (setRGB o (Color.init o) ⟨1, 2, 3⟩)).1 = ⟨1, 2, 3⟩ ∧
      (setHSL o (Color.init o) ⟨0, 1, 1 / 2⟩).map (fun c2 => (getRGB c2).1) =
        some ⟨255, 0, 0⟩ ∧
      (setHSL o (Color.init o) ⟨120, 1, 1 / 2⟩).map (fun c2 => (getRGB c2).1) =
        some ⟨0, 255, 0⟩) := by
  cases o <;> decide!

/-! ## The claims -/

/-- C1 (the code does not meet it): the round trip `setRGB`, `getHSL`, `setHSL`,
`getRGB` does not give back the triple within 1 per channel.  Whatever the
declaration order of `ColorRGB_t`, and whatever the prior state, the round trip
from (10, 20, 30) fails; with the fields declared red, green, blue the round
trip from (0, 255, 0) reads (0, 0, 255). -/
theorem roundTrip_exchanges_channels (o : FieldOrder) (c : Color) :
    ¬ RoundTripOK o c ⟨10, 20, 30⟩ ∧
      roundTrip declaredOrder c ⟨0, 255, 0⟩ = some ⟨0, 0, 255⟩ := by
  constructor
  · rintro ⟨out, h, hr, hg, hb⟩
    rw [roundTrip_prior o c (Color.init o)] at h
    simp only [near] at hr hg hb
    cases o
    · have e : roundTrip FieldOrder.red_green_blue (Color.init FieldOrder.red_green_blue)
          ⟨10, 20, 30⟩ = some ⟨10, 30, 20⟩ := by decide!
      rw [e] at h; cases h; dsimp only at hr hg hb; omega
    · have e : roundTrip FieldOrder.red_blue_green (Color.init FieldOrder.red_blue_green)
          ⟨10, 20, 30⟩ = some ⟨10, 30, 20⟩ := by decide!
      rw [e] at h; cases h; dsimp only at hr hg hb; omega
    · have e : roundTrip FieldOrder.green_red_blue (Color.init FieldOrder.green_red_blue)
          ⟨10, 20, 30⟩ = none := by decide!
      rw [e] at h; cases h
    · have e : roundTrip FieldOrder.green_blue_red (Color.init FieldOrder.green_blue_red)
          ⟨10, 20, 30⟩ = some ⟨30, 20, 10⟩ := by decide!
      rw [e] at h; cases h; dsimp only at hr hg hb; omega
    · have e : roundTrip FieldOrder.blue_red_green (Color.init FieldOrder.blue_red_green)
          ⟨10, 20, 30⟩ = some ⟨20, 10, 30⟩ := by decide!
      rw [e] at h; cases h; dsimp only at hr hg hb; omega
    · have e : roundTrip FieldOrder.blue_green_red (Color.init FieldOrder.blue_green_red)
          ⟨10, 20, 30⟩ = some ⟨10, 30, 20⟩ := by decide!
      rw [e] at h; cases h; dsimp only at hr hg hb; omega
  · rw [roundTrip_prior declaredOrder c (Color.init declaredOrder)]
    decide!

/-- C2 (the code does not meet it): with `ColorRGB_t` declared red, green, blue,
`setRGB` of the red primary stores HSL (0, 1, 0.5), but the green primary
(0, 255, 0) stores hue 240 and the blue primary (0, 0, 255) stores hue 120. -/
theorem setRGB_primaries_exchanged (c : Color) :
    (getHSL (setRGB declaredOrder c ⟨255, 0, 0⟩)).1 = ⟨0, 1, 1 / 2⟩ ∧
      (getHSL (setRGB declaredOrder c ⟨0, 255, 0⟩)).1 = ⟨240, 1, 1 / 2⟩ ∧
      (getHSL (setRGB declaredOrder c ⟨0, 0, 255⟩)).1 = ⟨120, 1, 1 / 2⟩ := by
  rw [setRGB_prior declaredOrder c (Color.init declaredOrder) ⟨255, 0, 0⟩,
    setRGB_prior declaredOrder c (Color.init declaredOrder) ⟨0, 255, 0⟩,
    setRGB_prior declaredOrder c (Color.init declaredOrder) ⟨0, 0, 255⟩]
  decide!

/-- C3: with `ColorRGB_t` declared red, green, blue, from any state `setHSL` of
(0, 1, 0.5) stores RGB (255, 0, 0), of (120, 1, 0.5) stores (0, 255, 0) and of
(240, 1, 0.5) stores (0, 0, 255). -/
theorem setHSL_primaries (c : Color) :
    (setHSL declaredOrder c ⟨0, 1, 1 / 2⟩).map (fun c2 => (getRGB c2).1) = some ⟨255, 0, 0⟩ ∧
      (setHSL declaredOrder c ⟨120, 1, 1 / 2⟩).map (fun c2 => (getRGB c2).1) = some ⟨0, 255, 0⟩ ∧
      (setHSL declaredOrder c ⟨240, 1, 1 / 2⟩).map (fun c2 => (getRGB c2).1) =
        some ⟨0, 0, 255⟩ := by
  rw [setHSL_prior declaredOrder c (Color.init declaredOrder) ⟨0, 1, 1 / 2⟩,
    setHSL_prior declaredOrder c (Color.init declaredOrder) ⟨120, 1, 1 / 2⟩,
    setHSL_prior declaredOrder c (Color.init declaredOrder) ⟨240, 1, 1 / 2⟩]
  decide!

/-- C5 (the code does not meet it): with `ColorRGB_t` declared red, green, blue,
`setRGB` stores the green argument in the blue channel and the blue argument in
the green channel; after `setRGB (0, 255, 0)`, `getRGB` returns (0, 0, 255). -/
theorem setRGB_stores_exchanged (c : Color) (rgb : ColorRGB_t) :
    (getRGB (setRGB declaredOrder c rgb)).1 = ⟨rgb.red, rgb.blue, rgb.green⟩ ∧
      (getRGB (setRGB declaredOrder c ⟨0, 255, 0⟩)).1 = ⟨0, 0, 255⟩ :=
  ⟨rfl, rfl⟩

/-- C6 (the code does not meet it): the hue stored by `setRGB` can be negative.
With `ColorRGB_t` declared red, green, blue, `setRGB (255, 255, 0)` stores hue
-60; declared red, blue, green, `setRGB (255, 0, 255)` stores hue -60; and for
every declaration order some triple of channels in [0, 255] stores hue -60. -/
theorem setRGB_hue_negative (c : Color) :
    (getHSL (setRGB declaredOrder c ⟨255, 255, 0⟩)).1.hue = -60 ∧
      (getHSL (setRGB FieldOrder.red_blue_green c ⟨255, 0, 255⟩)).1.hue = -60 ∧
      ∀ o, ∃ rgb : ColorRGB_t, rgb.red ≤ 255 ∧ rgb.green ≤ 255 ∧ rgb.blue ≤ 255 ∧
        (getHSL (setRGB o c rgb)).1.hue = -60 := by
  have e1 : ∀ o, (getHSL (setRGB o (Color.init o) ⟨255, 255, 0⟩)).1.hue = -60 ∨
      (getHSL (setRGB o (Color.init o) ⟨255, 0, 255⟩)).1.hue = -60 ∨
      (getHSL (setRGB o (Color.init o) ⟨0, 255, 255⟩)).1.hue = -60 := by
    intro o
    cases o <;> decide!
  refine ⟨?_, ?_, ?_⟩
  · rw [setRGB_prior declaredOrder c (Color.init declaredOrder)]
    decide!
  · rw [setRGB_prior FieldOrder.red_blue_green c (Color.init FieldOrder.red_blue_green)]
    decide!
  · intro o
    rcases e1 o with h | h | h
    · exact ⟨⟨255, 255, 0⟩, by decide, by decide, by decide,
        by rw [setRGB_prior o c (Color.init o)]; exact h⟩
    · exact ⟨⟨255, 0, 255⟩, by decide, by decide, by decide,
        by rw [setRGB_prior o c (Color.init o)]; exact h⟩
    · exact ⟨⟨0, 255, 255⟩, by decide, by decide, by decide,
        by rw [setRGB_prior o c (Color.init o)]; exact h⟩

/-- Monotonic lightness in exact arithmetic: for every hue in [0, 360),
saturation in [0, 1] and lightness values `0 ≤ l1 ≤ l2 ≤ 1`, `setHSL` returns
for both lightness values, and the sum red + green + blue read after
`setHSL (hue, saturation, l1)` is at most the sum read after
`setHSL (hue, saturation, l2)`; for every declaration order and all prior
states.  The rounding of the `float` operations is not part of this model. -/
theorem setHSL_lightness_monotone_exact (o : FieldOrder) (c1 c2 : Color) (h s l1 l2 : ℚ)
    (hh : 0 ≤ h ∧ h < 360) (hs : 0 ≤ s ∧ s ≤ 1) (h1 : 0 ≤ l1) (h12 : l1 ≤ l2) (h2 : l2 ≤ 1) :
    ∃ a b, setHSL o c1 ⟨h, s, l1⟩ = some a ∧ setHSL o c2 ⟨h, s, l2⟩ = some b ∧
      (getRGB a).1.sum ≤ (getRGB b).1.sum := by
  have d1 : ColorHSL_t.InDomain ⟨h, s, l1⟩ := ⟨hh, hs, h1, le_trans h12 h2⟩
  have d2 : ColorHSL_t.InDomain ⟨h, s, l2⟩ := ⟨hh, hs, le_trans h1 h12, h2⟩
  have hq0 : 0 ≤ h / 60 := by have := hh.1; positivity
  have hq6 : h / 60 < 6 := by
    rw [div_lt_iff₀ (by norm_num)]; linarith [hh.2]
  obtain ⟨k0, k1⟩ := fabs_fmod_le hq0
  obtain ⟨⟨a1, a2, a3⟩, hsec⟩ := sector_isSome 1 (1 - fabs (fmod (h / 60) 2 - 1)) hq0 hq6
  obtain ⟨⟨p0, p1⟩, ⟨q0, q1⟩, r0, r1⟩ := sector_unit_entries k0 k1 hsec
  obtain ⟨a, ha, hsa⟩ := setHSL_sum o c1 h s l1 d1 hsec
  obtain ⟨b, hb, hsb⟩ := setHSL_sum o c2 h s l2 d2 hsec
  refine ⟨a, b, ha, hb, ?_⟩
  simp only [getRGB, ColorRGB_t.sum]
  rw [hsa, hsb]
  have m1 := toNat_trunc_mono (channel_mono h s l1 l2 a1 hs.1 hs.2 h12 p0 p1)
  have m2 := toNat_trunc_mono (channel_mono h s l1 l2 a2 hs.1 hs.2 h12 q0 q1)
  have m3 := toNat_trunc_mono (channel_mono h s l1 l2 a3 hs.1 hs.2 h12 r0 r1)
  omega

/-- Monotonic lightness in exact arithmetic, at hue 120, saturation 1 and
lightness 1/4 and 1/2. -/
theorem setHSL_lightness_monotone_exact_witness :
    ∃ a b, setHSL declaredOrder (Color.init declaredOrder) ⟨120, 1, 1 / 4⟩ = some a ∧
      setHSL declaredOrder (Color.init declaredOrder) ⟨120, 1, 1 / 2⟩ = some b ∧
      (getRGB a).1.sum ≤ (getRGB b).1.sum :=
  setHSL_lightness_monotone_exact declaredOrder (Color.init declaredOrder) (Color.init declaredOrder)
    120 1 (1 / 4) (1 / 2) (by norm_num) (by norm_num) (by norm_num) (by norm_num) (by norm_num)

/-- C9 (the code does not meet it): a hue of exactly 360 is not normalised.  For
every saturation and lightness no sector condition holds at hue 360, `tr`, `tg`
and `tb` stay uninitialised and `setHSL (360, s, l)` has no defined result,
while `setHSL (0, 1, 0.5)` stores the channels 255, 0, 0. -/
theorem setHSL_360_undefined (o : FieldOrder) (c : Color) (s l : ℚ) :
    sector ((⟨360, s, l⟩ : ColorHSL_t).hue / 60) (chroma ⟨360, s, l⟩) (secondary ⟨360, s, l⟩) =
        none ∧
      setHSL o c ⟨360, s, l⟩ = none ∧
      setHSL o c ⟨0, 1, 1 / 2⟩ = some ⟨⟨0, 1, 1 / 2⟩, ColorRGB_t.braces o 255 0 0⟩ := by
  have e : sector ((⟨360, s, l⟩ : ColorHSL_t).hue / 60) (chroma ⟨360, s, l⟩)
      (secondary ⟨360, s, l⟩) = none := by
    simp only [sector]
    norm_num
  refine ⟨e, ?_, ?_⟩
  · simp only [setHSL, _convertHSLtoRGB, ColorHSL_t.braces, e]
  · rw [setHSL_prior o c (Color.init o)]
    cases o <;> decide!

/-- C10: `setHSL` stores its argument and the conversion leaves it untouched.
Whenever `setHSL hsl` has a result, `getHSL` then returns exactly `hsl`; for
every `hsl` in the domain it has a result; and `getRGB`, `getHSL` return the
object unchanged.  For every declaration order and every prior state. -/
theorem setHSL_getHSL (o : FieldOrder) (c : Color) (hsl : ColorHSL_t) :
    (∀ c2, setHSL o c hsl = some c2 → (getHSL c2).1 = hsl) ∧
      (hsl.InDomain → ∃ c2, setHSL o c hsl = some c2 ∧ (getHSL c2).1 = hsl) ∧
      (getRGB c).2 = c ∧ (getHSL c).2 = c := by
  have key : ∀ c2, setHSL o c hsl = some c2 → (getHSL c2).1 = hsl := by
    intro c2 h
    simp only [setHSL, _convertHSLtoRGB, ColorHSL_t.braces] at h
    split at h
    · cases h
    · split at h
      · cases h; rfl
      · cases h
  refine ⟨key, ?_, rfl, rfl⟩
  intro hd
  have hq0 : 0 ≤ hsl.hue / 60 := by have := hd.1.1; positivity
  have hq6 : hsl.hue / 60 < 6 := by
    rw [div_lt_iff₀ (by norm_num)]; linarith [hd.1.2]
  obtain ⟨⟨tr, tg, tb⟩, hsec⟩ := sector_isSome (chroma hsl) (secondary hsl) hq0 hq6
  exact ⟨_, setHSL_eq o c hd hsec, rfl⟩

/-- C10, at HSL (120, 1, 0.5) from the initial state. -/
theorem setHSL_getHSL_witness :
    ColorHSL_t.InDomain ⟨120, 1, 1 / 2⟩ ∧
      (setHSL declaredOrder (Color.init declaredOrder) ⟨120, 1, 1 / 2⟩ =
        some ⟨⟨120, 1, 1 / 2⟩, ⟨0, 255, 0⟩⟩) ∧
      (getHSL (⟨⟨120, 1, 1 / 2⟩, ⟨0, 255, 0⟩⟩ : Color)).1 = ⟨120, 1, 1 / 2⟩ ∧
      ∃ c2, setHSL declaredOrder (Color.init declaredOrder) ⟨120, 1, 1 / 2⟩ = some c2 ∧
        (getHSL c2).1 = ⟨120, 1, 1 / 2⟩ :=
  ⟨by decide!, by decide!,
    (setHSL_getHSL declaredOrder (Color.init declaredOrder) ⟨120, 1, 1 / 2⟩).1 _ (by decide!),
    (setHSL_getHSL declaredOrder (Color.init declaredOrder) ⟨120, 1, 1 / 2⟩).2.1 (by decide!)⟩

/-- C11: `setRGB` is deterministic.  For every declaration order, every triple
`rgb` and any two prior states, the HSL stored by `setRGB rgb` is the same; a
second `setRGB rgb` stores the same HSL again; and the hue never keeps its prior
value, since one of the three assignments is reached whenever `delta > 0`. -/
theorem setRGB_deterministic (o : FieldOrder) (s1 s2 : Color) (rgb : ColorRGB_t) :
    (getHSL (setRGB o s1 rgb)).1 = (getHSL (setRGB o s2 rgb)).1 ∧
      (getHSL (setRGB o (getHSL (setRGB o s1 rgb)).2 rgb)).1 = (getHSL (setRGB o s1 rgb)).1 ∧
      ∀ old old2 rn gn bn : ℚ, hueOf old rn gn bn = hueOf old2 rn gn bn := by
  refine ⟨?_, ?_, ?_⟩
  · rw [setRGB_prior o s1 s2]
  · rw [setRGB_prior o (getHSL (setRGB o s1 rgb)).2 s1]
  · intro old old2 rn gn bn
    exact hueOf_old old old2 rn gn bn

/-- C12: a freshly constructed `Color` returns RGB (0, 0, 0) and HSL (0, 0, 0),
and `setRGB (0, 0, 0)` on it leaves the HSL at (0, 0, 0); for every declaration
order. -/
theorem init_black (o : FieldOrder) :
    (getRGB (Color.init o)).1 = ⟨0, 0, 0⟩ ∧ (getHSL (Color.init o)).1 = ⟨0, 0, 0⟩ ∧
      (getHSL (setRGB o (Color.init o) ⟨0, 0, 0⟩)).1 = ⟨0, 0, 0⟩ := by
  cases o <;> decide!

/-! ## Divisions and ranges in the RGB to HSL conversion -/

theorem checkedDiv_of_ne (a : ℚ) {b : ℚ} (h : b ≠ 0) : checkedDiv a b = some (a / b) := by
  simp [checkedDiv, h]

theorem hueChecked_eq (old rn gn bn : ℚ) :
    hueChecked old rn gn bn = some (hueOf old rn gn bn) := by
  unfold hueChecked hueOf
  by_cases hd : fmax rn (fmax bn gn) - fmin rn (fmin bn gn) > 0
  · have hne : fmax rn (fmax bn gn) - fmin rn (fmin bn gn) ≠ 0 := ne_of_gt hd
    simp only [hd, if_true, checkedDiv_of_ne _ hne, Option.map_some']
    split_ifs <;> rfl
  · simp only [hd, if_false]

theorem denominator_pos {l : ℚ} (h0 : l > 0) (h1 : l < 1) : 0 < 1 - fabs (2 * l - 1) := by
  unfold fabs
  have : |2 * l - 1| < 1 := abs_lt.mpr ⟨by linarith, by linarith⟩
  linarith

theorem saturationChecked_eq (l delta : ℚ) :
    saturationChecked l delta =
      some (if l > 0 ∧ l < 1 then delta / (1 - fabs (2 * l - 1)) else 0) := by
  unfold saturationChecked
  by_cases h : l > 0 ∧ l < 1
  · simp only [h, and_self, if_true, checkedDiv_of_ne _ (ne_of_gt (denominator_pos h.1 h.2))]
  · simp only [h, if_false]

theorem convertRGBtoHSLChecked_eq (c : Color) :
    convertRGBtoHSLChecked c = some (_convertRGBtoHSL c) := by
  unfold convertRGBtoHSLChecked
  simp only [hueChecked_eq, saturationChecked_eq]
  rfl

theorem braces_maxn (o : FieldOrder) (rgb : ColorRGB_t) :
    (ColorRGB_t.braces o rgb.red rgb.blue rgb.green).maxn = rgb.maxn := by
  cases o <;> simp only [ColorRGB_t.maxn, ColorRGB_t.braces, fmax] <;> ac_rfl

theorem braces_minn (o : FieldOrder) (rgb : ColorRGB_t) :
    (ColorRGB_t.braces o rgb.red rgb.blue rgb.green).minn = rgb.minn := by
  cases o <;> simp only [ColorRGB_t.minn, ColorRGB_t.braces, fmin] <;> ac_rfl

theorem setRGB_lightness (o : FieldOrder) (c : Color) (rgb : ColorRGB_t) :
    (getHSL (setRGB o c rgb)).1.lightness = (rgb.maxn + rgb.minn) / 2 := by
  rw [← braces_maxn o rgb, ← braces_minn o rgb]
  rfl

theorem setRGB_saturation (o : FieldOrder) (c : Color) (rgb : ColorRGB_t) :
    (getHSL (setRGB o c rgb)).1.saturation =
      if (rgb.maxn + rgb.minn) / 2 > 0 ∧ (rgb.maxn + rgb.minn) / 2 < 1 then
        (rgb.maxn - rgb.minn) / (1 - fabs (2 * ((rgb.maxn + rgb.minn) / 2) - 1))
      else 0 := by
  rw [← braces_maxn o rgb, ← braces_minn o rgb]
  rfl

theorem channel_bounds {rgb : ColorRGB_t} (hr : rgb.InRange) :
    0 ≤ rgb.minn ∧ rgb.minn ≤ rgb.maxn ∧ rgb.maxn ≤ 1 := by
  obtain ⟨h1, h2, h3⟩ := hr
  have r0 : (0 : ℚ) ≤ (rgb.red : ℚ) / UINT8_MAX := by unfold UINT8_MAX; positivity
  have g0 : (0 : ℚ) ≤ (rgb.green : ℚ) / UINT8_MAX := by unfold UINT8_MAX; positivity
  have b0 : (0 : ℚ) ≤ (rgb.blue : ℚ) / UINT8_MAX := by unfold UINT8_MAX; positivity
  have r1 : (rgb.red : ℚ) / UINT8_MAX ≤ 1 := by
    unfold UINT8_MAX; rw [div_le_one (by norm_num)]; exact_mod_cast h1
  have g1 : (rgb.green : ℚ) / UINT8_MAX ≤ 1 := by
    unfold UINT8_MAX; rw [div_le_one (by norm_num)]; exact_mod_cast h2
  have b1 : (rgb.blue : ℚ) / UINT8_MAX ≤ 1 := by
    unfold UINT8_MAX; rw [div_le_one (by norm_num)]; exact_mod_cast h3
  refine ⟨?_, ?_, ?_⟩
  · exact le_min r0 (le_min b0 g0)
  · exact le_trans (min_le_left _ _) (le_max_left _ _)
  · exact max_le r1 (max_le b1 g1)

/-- Saturation and lightness range in exact arithmetic: for every triple with
channels in [0, 255], every declaration order and every prior state, `setRGB`
stores lightness `(max + min) / 2` in [0, 1] and a saturation in [0, 1], where
`max` and `min` are the largest and smallest normalised channels.  The rounding
of the `float` operations is not part of this model. -/
theorem setRGB_ranges_exact (o : FieldOrder) (c : Color) (rgb : ColorRGB_t)
    (hr : rgb.InRange) :
    (getHSL (setRGB o c rgb)).1.lightness = (rgb.maxn + rgb.minn) / 2 ∧
      (0 ≤ (getHSL (setRGB o c rgb)).1.lightness ∧ (getHSL (setRGB o c rgb)).1.lightness ≤ 1) ∧
      (0 ≤ (getHSL (setRGB o c rgb)).1.saturation ∧
        (getHSL (setRGB o c rgb)).1.saturation ≤ 1) := by
  obtain ⟨m0, mM, M1⟩ := channel_bounds hr
  refine ⟨setRGB_lightness o c rgb, ?_, ?_⟩
  · rw [setRGB_lightness]
    constructor
    · linarith
    · linarith
  · rw [setRGB_saturation]
    split_ifs with h
    · have hden := denominator_pos h.1 h.2
      have habs : fabs (2 * ((rgb.maxn + rgb.minn) / 2) - 1) ≤ 1 - (rgb.maxn - rgb.minn) := by
        unfold fabs
        exact abs_le.mpr ⟨by linarith, by linarith⟩
      constructor
      · exact div_nonneg (by linarith) (le_of_lt hden)
      · rw [div_le_one hden]
        linarith
    · exact ⟨le_refl 0, by norm_num⟩

/-- Saturation and lightness range in exact arithmetic, at the triple
(10, 20, 30). -/
theorem setRGB_ranges_exact_witness :
    ColorRGB_t.InRange ⟨10, 20, 30⟩ ∧
      (0 ≤ (getHSL (setRGB declaredOrder (Color.init declaredOrder) ⟨10, 20, 30⟩)).1.saturation ∧
        (getHSL (setRGB declaredOrder (Color.init declaredOrder) ⟨10, 20, 30⟩)).1.saturation ≤ 1) :=
  ⟨by decide, (setRGB_ranges_exact declaredOrder (Color.init declaredOrder) ⟨10, 20, 30⟩
    (by decide)).2.2⟩

/-- C14: no division by zero in `_convertRGBtoHSL`.  For every triple with
channels in [0, 255], every declaration order and every prior state, the
conversion with the divisions by `delta` and by `1 - |2 * lightness - 1|`
checked has a result, the one `setRGB` stores; the second divisor is non-zero
whenever `0 < lightness < 1`; and the branch that sets the saturation to 0 is
taken exactly when the lightness is 0 or 1. -/
theorem convertRGBtoHSL_no_zero_division (o : FieldOrder) (c : Color) (rgb : ColorRGB_t)
    (hr : rgb.InRange) :
    convertRGBtoHSLChecked { c with _rgb := ColorRGB_t.braces o rgb.red rgb.blue rgb.green } =
        some (setRGB o c rgb) ∧
      ((getHSL (setRGB o c rgb)).1.lightness > 0 ∧ (getHSL (setRGB o c rgb)).1.lightness < 1 →
        1 - fabs (2 * (getHSL (setRGB o c rgb)).1.lightness - 1) ≠ 0) ∧
      (SaturationElse (getHSL (setRGB o c rgb)).1.lightness ↔
        ((getHSL (setRGB o c rgb)).1.lightness = 0 ∨ (getHSL (setRGB o c rgb)).1.lightness = 1)) := by
  obtain ⟨m0, mM, M1⟩ := channel_bounds hr
  refine ⟨?_, ?_, ?_⟩
  · rw [convertRGBtoHSLChecked_eq]
    rfl
  · intro h
    exact ne_of_gt (denominator_pos h.1 h.2)
  · rw [setRGB_lightness]
    unfold SaturationElse
    constructor
    · intro h
      by_cases h0 : (rgb.maxn + rgb.minn) / 2 > 0
      · right
        have : ¬ (rgb.maxn + rgb.minn) / 2 < 1 := fun h1 => h ⟨h0, h1⟩
        linarith [not_lt.mp this]
      · left
        linarith [not_lt.mp h0]
    · rintro (h | h) ⟨h0, h1⟩
      · linarith
      · linarith

/-- C14, at the triple (10, 20, 30) from the initial state. -/
theorem convertRGBtoHSL_no_zero_division_witness :
    ColorRGB_t.InRange ⟨10, 20, 30⟩ ∧
      convertRGBtoHSLChecked { Color.init declaredOrder with
          _rgb := ColorRGB_t.braces declaredOrder 10 30 20 } =
        some (setRGB declaredOrder (Color.init declaredOrder) ⟨10, 20, 30⟩) :=
  ⟨by decide, (convertRGBtoHSL_no_zero_division declaredOrder (Color.init declaredOrder)
    ⟨10, 20, 30⟩ (by decide)).1⟩

/-! ## Defined conversion and grey values in the HSL to RGB conversion -/

theorem sector_index_unique {q : ℚ} (h0 : 0 ≤ q) (h6 : q < 6) :
    ∃! i : ℕ, i < 6 ∧ (i : ℚ) ≤ q ∧ q < (i : ℚ) + 1 := by
  have hf0 : (0 : ℤ) ≤ ⌊q⌋ := Int.floor_nonneg.mpr h0
  have hcast : ((⌊q⌋.toNat : ℕ) : ℚ) = (⌊q⌋ : ℚ) := by
    have : ((⌊q⌋.toNat : ℕ) : ℤ) = ⌊q⌋ := Int.toNat_of_nonneg hf0
    exact_mod_cast this
  refine ⟨⌊q⌋.toNat, ⟨?_, ?_, ?_⟩, ?_⟩
  · have h1 : ⌊q⌋ < 6 := Int.floor_lt.mpr (by exact_mod_cast h6)
    omega
  · rw [hcast]; exact Int.floor_le q
  · rw [hcast]; exact Int.lt_floor_add_one q
  · rintro j ⟨_, hj1, hj2⟩
    have a1 := Int.floor_le q
    have a2 := Int.lt_floor_add_one q
    have b1 : (j : ℚ) < (⌊q⌋ : ℚ) + 1 := by linarith
    have b2 : (⌊q⌋ : ℚ) < (j : ℚ) + 1 := by linarith
    have c1 : (j : ℤ) < ⌊q⌋ + 1 := by exact_mod_cast b1
    have c2 : ⌊q⌋ < (j : ℤ) + 1 := by exact_mod_cast b2
    omega

/-- Defined 8-bit conversion in exact arithmetic: for every HSL value in the
domain exactly one of the six sector conditions `i ≤ h < i + 1` holds, `tr`,
`tg`, `tb` are assigned, each of `(tr + m) * 255`, `(tg + m) * 255`,
`(tb + m) * 255` lies in [0, 255], and `setHSL` has a result.  The rounding of
the `float` operations is not part of this model. -/
theorem convertHSLtoRGB_defined_exact (o : FieldOrder) (c : Color) (hsl : ColorHSL_t)
    (hd : hsl.InDomain) :
    (∃! i : ℕ, i < 6 ∧ (i : ℚ) ≤ hsl.hue / 60 ∧ hsl.hue / 60 < (i : ℚ) + 1) ∧
      ∃ tr tg tb, sector (hsl.hue / 60) (chroma hsl) (secondary hsl) = some (tr, tg, tb) ∧
        (0 ≤ (tr + offset hsl) * 255 ∧ (tr + offset hsl) * 255 ≤ 255) ∧
        (0 ≤ (tg + offset hsl) * 255 ∧ (tg + offset hsl) * 255 ≤ 255) ∧
        (0 ≤ (tb + offset hsl) * 255 ∧ (tb + offset hsl) * 255 ≤ 255) ∧
        ∃ c2, setHSL o c hsl = some c2 := by
  have hq0 : 0 ≤ hsl.hue / 60 := by have := hd.1.1; positivity
  have hq6 : hsl.hue / 60 < 6 := by
    rw [div_lt_iff₀ (by norm_num)]; linarith [hd.1.2]
  obtain ⟨⟨tr, tg, tb⟩, hsec⟩ := sector_isSome (chroma hsl) (secondary hsl) hq0 hq6
  obtain ⟨er, eg, eb⟩ := sector_entries hsec
  obtain ⟨r0, r1⟩ := entry_unit hd er
  obtain ⟨g0, g1⟩ := entry_unit hd eg
  obtain ⟨b0, b1⟩ := entry_unit hd eb
  refine ⟨sector_index_unique hq0 hq6, tr, tg, tb, hsec, ⟨?_, ?_⟩, ⟨?_, ?_⟩, ⟨?_, ?_⟩,
    _, setHSL_eq o c hd hsec⟩ <;> nlinarith

/-- Defined 8-bit conversion in exact arithmetic, at HSL (200, 1/2, 1/4). -/
theorem convertHSLtoRGB_defined_exact_witness :
    ColorHSL_t.InDomain ⟨200, 1 / 2, 1 / 4⟩ ∧
      ∃ c2, setHSL declaredOrder (Color.init declaredOrder) ⟨200, 1 / 2, 1 / 4⟩ = some c2 := by
  refine ⟨by decide!, ?_⟩
  obtain ⟨_, _, _, _, _, _, _, _, h⟩ :=
    convertHSLtoRGB_defined_exact declaredOrder (Color.init declaredOrder) ⟨200, 1 / 2, 1 / 4⟩
      (by decide!)
  exact h

/-- C16: zero saturation gives grey, independent of the hue.  For every hue in
[0, 360), every lightness `l` in [0, 1], every declaration order and every prior
state, `setHSL (hue, 0, l)` stores red = green = blue = floor (l * 255). -/
theorem setHSL_grey (o : FieldOrder) (c : Color) (hue l : ℚ) (hh : 0 ≤ hue ∧ hue < 360)
    (hl : 0 ≤ l ∧ l ≤ 1) :
    (setHSL o c ⟨hue, 0, l⟩).map (fun c2 => (getRGB c2).1) =
      some ⟨⌊l * 255⌋₊, ⌊l * 255⌋₊, ⌊l * 255⌋₊⟩ := by
  have hd : ColorHSL_t.InDomain ⟨hue, 0, l⟩ := ⟨hh, ⟨le_refl 0, by norm_num⟩, hl⟩
  have hq0 : 0 ≤ hue / 60 := by have := hh.1; positivity
  have hq6 : hue / 60 < 6 := by
    rw [div_lt_iff₀ (by norm_num)]; linarith [hh.2]
  have hc : chroma ⟨hue, 0, l⟩ = 0 := by simp [chroma]
  have hx : secondary ⟨hue, 0, l⟩ = 0 := by simp [secondary, hc]
  have hm : offset ⟨hue, 0, l⟩ = l := by simp [offset, hc]
  obtain ⟨⟨tr, tg, tb⟩, hsec⟩ :=
    sector_isSome (chroma ⟨hue, 0, l⟩) (secondary ⟨hue, 0, l⟩) hq0 hq6
  obtain ⟨er, eg, eb⟩ := sector_entries hsec
  rw [hc, hx] at er eg eb
  have tr0 : tr = 0 := by rcases er with h | h | h <;> exact h
  have tg0 : tg = 0 := by rcases eg with h | h | h <;> exact h
  have tb0 : tb = 0 := by rcases eb with h | h | h <;> exact h
  have hfl : (trunc ((0 + l) * 255)).toNat = ⌊l * 255⌋₊ := by
    rw [zero_add, trunc_of_nonneg (by have := hl.1; positivity), Int.floor_toNat]
  have hsec2 : sector ((⟨hue, 0, l⟩ : ColorHSL_t).hue / 60) (chroma ⟨hue, 0, l⟩)
      (secondary ⟨hue, 0, l⟩) = some (tr, tg, tb) := hsec
  rw [setHSL_eq o c hd hsec2, hm, tr0, tg0, tb0, hfl]
  cases o <;> rfl

/-- C16, at hue 200 and lightness 1/2: the stored channels are 127. -/
theorem setHSL_grey_witness :
    ((0 : ℚ) ≤ 200 ∧ (200 : ℚ) < 360) ∧ ((0 : ℚ) ≤ 1 / 2 ∧ (1 / 2 : ℚ) ≤ 1) ∧
      (setHSL declaredOrder (Color.init declaredOrder) ⟨200, 0, 1 / 2⟩).map
        (fun c2 => (getRGB c2).1) = some ⟨⌊(1 / 2 : ℚ) * 255⌋₊, ⌊(1 / 2 : ℚ) * 255⌋₊,
          ⌊(1 / 2 : ℚ) * 255⌋₊⟩ :=
  ⟨by norm_num, by norm_num,
    setHSL_grey declaredOrder (Color.init declaredOrder) 200 (1 / 2) (by norm_num) (by norm_num)⟩


/-! ## Rounding to a binary format -/

theorem ilog2Aux_spec (fuel n : Nat) (h1 : 1 ≤ n) (hf : n ≤ fuel) :
    2 ^ ilog2Aux fuel n ≤ n ∧ n < 2 ^ (ilog2Aux fuel n + 1) := by
  induction fuel generalizing n with
  | zero => omega
  | succ f ih =>
    unfold ilog2Aux
    by_cases h2 : 2 ≤ n
    · simp only [h2, if_true]
      have hdiv1 : 1 ≤ n / 2 := by omega
      have hdivf : n / 2 ≤ f := by omega
      obtain ⟨a, b⟩ := ih (n / 2) hdiv1 hdivf
      constructor
      · rw [pow_succ]; omega
      · rw [pow_succ]; omega
    · simp only [h2, if_false]
      constructor
      · simp; omega
      · simp; omega

theorem ilog2_spec (n : Nat) (h1 : 1 ≤ n) : 2 ^ ilog2 n ≤ n ∧ n < 2 ^ (ilog2 n + 1) :=
  ilog2Aux_spec n n h1 (le_refl n)

theorem abs_eq_natAbs_div_den (x : ℚ) : |x| = (x.num.natAbs : ℚ) / (x.den : ℚ) := by
  have h1 : (x.num.natAbs : ℚ) = |(x.num : ℚ)| := by
    rw [Nat.cast_natAbs, Int.cast_abs]
  rw [h1]
  conv_lhs => rw [← Rat.num_div_den x]
  rw [abs_div, Nat.abs_cast]

theorem expo_spec (x : ℚ) (hx : x ≠ 0) :
    (2 : ℚ) ^ expo x ≤ |x| ∧ |x| < (2 : ℚ) ^ (expo x + 1) := by
  have hn1 : 1 ≤ x.num.natAbs := by
    have : x.num ≠ 0 := Rat.num_ne_zero.mpr hx
    omega
  have hd1 : 1 ≤ x.den := x.den_pos
  obtain ⟨na, nb⟩ := ilog2_spec x.num.natAbs hn1
  obtain ⟨da, db⟩ := ilog2_spec x.den hd1
  have hdpos : (0 : ℚ) < (x.den : ℚ) := by exact_mod_cast hd1
  have na' : (2 : ℚ) ^ ilog2 x.num.natAbs ≤ (x.num.natAbs : ℚ) := by exact_mod_cast na
  have nb' : (x.num.natAbs : ℚ) < (2 : ℚ) ^ (ilog2 x.num.natAbs + 1) := by exact_mod_cast nb
  have da' : (2 : ℚ) ^ ilog2 x.den ≤ (x.den : ℚ) := by exact_mod_cast da
  have db' : (x.den : ℚ) < (2 : ℚ) ^ (ilog2 x.den + 1) := by exact_mod_cast db
  have p1 : (0 : ℚ) < (2 : ℚ) ^ ilog2 x.num.natAbs := by positivity
  have p2 : (0 : ℚ) < (2 : ℚ) ^ ilog2 x.den := by positivity
  rw [abs_eq_natAbs_div_den]
  unfold expo
  split_ifs with hc
  · have hc' : (x.num.natAbs : ℚ) * (2 : ℚ) ^ ilog2 x.den <
        (x.den : ℚ) * (2 : ℚ) ^ ilog2 x.num.natAbs := by exact_mod_cast hc
    constructor
    · rw [le_div_iff₀ hdpos, sub_sub, zpow_sub₀ (by norm_num), zpow_natCast]
      rw [div_mul_eq_mul_div, div_le_iff₀ (by positivity)]
      have e : (2 : ℚ) ^ ((ilog2 x.den : ℤ) + 1) = (2 : ℚ) ^ (ilog2 x.den + 1) := by
        norm_cast
      rw [e]
      nlinarith [pow_succ (2 : ℚ) (ilog2 x.den)]
    · rw [div_lt_iff₀ hdpos]
      have e : (ilog2 x.num.natAbs : ℤ) - (ilog2 x.den : ℤ) - 1 + 1 =
          (ilog2 x.num.natAbs : ℤ) - (ilog2 x.den : ℤ) := by ring
      rw [e, zpow_sub₀ (by norm_num), zpow_natCast, zpow_natCast, div_mul_eq_mul_div,
        lt_div_iff₀ p2]
      linarith
  · have hc' : (x.den : ℚ) * (2 : ℚ) ^ ilog2 x.num.natAbs ≤
        (x.num.natAbs : ℚ) * (2 : ℚ) ^ ilog2 x.den := by exact_mod_cast not_lt.mp hc
    constructor
    · rw [le_div_iff₀ hdpos, zpow_sub₀ (by norm_num), zpow_natCast, zpow_natCast,
        div_mul_eq_mul_div, div_le_iff₀ p2]
      linarith
    · rw [div_lt_iff₀ hdpos]
      have e : (ilog2 x.num.natAbs : ℤ) - (ilog2 x.den : ℤ) + 1 =
          ((ilog2 x.num.natAbs + 1 : ℕ) : ℤ) - (ilog2 x.den : ℤ) := by push_cast; ring
      rw [e, zpow_sub₀ (by norm_num), zpow_natCast, zpow_natCast, div_mul_eq_mul_div,
        lt_div_iff₀ p2]
      nlinarith

theorem roundEven_err (y : ℚ) : |(roundEven y : ℚ) - y| ≤ 1 / 2 := by
  have h1 := Int.floor_le y
  have h2 := Int.lt_floor_add_one y
  unfold roundEven
  split_ifs with a b c
  · rw [abs_le]; constructor <;> linarith
  · rw [abs_le]; push_cast; constructor <;> linarith
  · rw [abs_le]; constructor <;> linarith
  · rw [abs_le]; push_cast; constructor <;> linarith

theorem roundEven_le_int {y : ℚ} {N : ℤ} (h : y ≤ (N : ℚ)) : roundEven y ≤ N := by
  have hf : ⌊y⌋ ≤ N := by
    have := Int.floor_mono h
    rwa [Int.floor_intCast] at this
  have hfl := Int.floor_le y
  unfold roundEven
  split_ifs with a b c
  · exact hf
  · by_contra hcon
    have e : ⌊y⌋ = N := by omega
    rw [e] at b
    linarith
  · exact hf
  · by_contra hcon
    have e : ⌊y⌋ = N := by omega
    rw [e] at a
    have : y - (N : ℚ) ≤ 0 := by linarith
    linarith

theorem int_le_roundEven {y : ℚ} {N : ℤ} (h : (N : ℚ) ≤ y) : N ≤ roundEven y := by
  have hf : N ≤ ⌊y⌋ := Int.le_floor.mpr h
  unfold roundEven
  split_ifs <;> omega

theorem ulp_pos (p : ℕ) (emin : ℤ) (x : ℚ) : 0 < ulp p emin x := by
  unfold ulp
  positivity

theorem roundTo_zero (p : ℕ) (emin : ℤ) : roundTo p emin 0 = 0 := by
  simp [roundTo]

theorem roundTo_nonneg (p : ℕ) (emin : ℤ) {x : ℚ} (h : 0 ≤ x) : 0 ≤ roundTo p emin x := by
  unfold roundTo
  split_ifs with h0
  · exact le_refl 0
  · have hy : ((0 : ℤ) : ℚ) ≤ x / ulp p emin x := by
      push_cast
      exact div_nonneg h (le_of_lt (ulp_pos p emin x))
    have hr : (0 : ℤ) ≤ roundEven (x / ulp p emin x) := int_le_roundEven hy
    have hr' : (0 : ℚ) ≤ (roundEven (x / ulp p emin x) : ℚ) := by exact_mod_cast hr
    exact mul_nonneg hr' (le_of_lt (ulp_pos p emin x))

theorem expo_le {x : ℚ} (hx : x ≠ 0) {j : ℤ} (h : |x| ≤ (2 : ℚ) ^ j) : expo x ≤ j := by
  have h1 := (expo_spec x hx).1
  have h2 : (2 : ℚ) ^ expo x ≤ (2 : ℚ) ^ j := le_trans h1 h
  exact (zpow_le_zpow_iff_right₀ (by norm_num : (1 : ℚ) < 2)).mp h2

/-- The rounding error: for `|x| ≤ 2 ^ j` it is at most `2 ^ (j - p)`. -/
theorem roundTo_err (p : ℕ) (emin : ℤ) {x : ℚ} {j : ℤ} (h : |x| ≤ (2 : ℚ) ^ j)
    (hj : emin ≤ j) : |roundTo p emin x - x| ≤ (2 : ℚ) ^ (j - (p : ℤ)) := by
  unfold roundTo
  split_ifs with h0
  · rw [h0, sub_zero, abs_zero]; positivity
  · have hu := ulp_pos p emin x
    have hM : max (expo x) emin ≤ j := max_le (expo_le h0 h) hj
    have e1 : (roundEven (x / ulp p emin x) : ℚ) * ulp p emin x - x =
        ((roundEven (x / ulp p emin x) : ℚ) - x / ulp p emin x) * ulp p emin x := by
      field_simp
    rw [e1, abs_mul, abs_of_pos hu]
    have h1 := roundEven_err (x / ulp p emin x)
    have h2 : ulp p emin x * (1 / 2) ≤ (2 : ℚ) ^ (j - (p : ℤ)) := by
      have e2 : ulp p emin x * (1 / 2) = (2 : ℚ) ^ (max (expo x) emin - (p : ℤ)) := by
        unfold ulp
        have e3 : max (expo x) emin - ((p : ℤ) - 1) = (max (expo x) emin - (p : ℤ)) + 1 := by
          ring
        rw [e3, zpow_add_one₀ (by norm_num)]
        ring
      rw [e2]
      exact (zpow_le_zpow_iff_right₀ (by norm_num : (1 : ℚ) < 2)).mpr (by omega)
    calc |(roundEven (x / ulp p emin x) : ℚ) - x / ulp p emin x| * ulp p emin x
        ≤ (1 / 2) * ulp p emin x := mul_le_mul_of_nonneg_right h1 (le_of_lt hu)
      _ = ulp p emin x * (1 / 2) := by ring
      _ ≤ (2 : ℚ) ^ (j - (p : ℤ)) := h2

/-- Rounding does not cross a power of two: for `|x| ≤ 2 ^ j` also
`|roundTo p emin x| ≤ 2 ^ j`. -/
theorem roundTo_abs_le (p : ℕ) (hp : 1 ≤ p) (emin : ℤ) {x : ℚ} {j : ℤ}
    (h : |x| ≤ (2 : ℚ) ^ j) (hj : emin ≤ j) : |roundTo p emin x| ≤ (2 : ℚ) ^ j := by
  unfold roundTo
  split_ifs with h0
  · rw [abs_zero]; positivity
  · have hu := ulp_pos p emin x
    have hM : max (expo x) emin ≤ j := max_le (expo_le h0 h) hj
    obtain ⟨k, hk⟩ : ∃ k : ℕ, (k : ℤ) = j - (max (expo x) emin - ((p : ℤ) - 1)) :=
      ⟨(j - (max (expo x) emin - ((p : ℤ) - 1))).toNat, Int.toNat_of_nonneg (by omega)⟩
    have hN : (2 : ℚ) ^ j = (((2 : ℤ) ^ k : ℤ) : ℚ) * ulp p emin x := by
      unfold ulp
      push_cast
      rw [← zpow_natCast, hk, ← zpow_add₀ (by norm_num)]
      congr 1
      ring
    obtain ⟨hl, hr⟩ := abs_le.mp h
    have hy1 : x / ulp p emin x ≤ (((2 : ℤ) ^ k : ℤ) : ℚ) := by
      rw [div_le_iff₀ hu, ← hN]; exact hr
    have hy2 : ((-((2 : ℤ) ^ k) : ℤ) : ℚ) ≤ x / ulp p emin x := by
      rw [le_div_iff₀ hu]; push_cast
      have : -((2 : ℚ) ^ k * ulp p emin x) ≤ x := by
        have := hN; push_cast at this; rw [← this]; exact hl
      linarith
    have r1 := roundEven_le_int hy1
    have r2 := int_le_roundEven hy2
    have r1' : (roundEven (x / ulp p emin x) : ℚ) ≤ (((2 : ℤ) ^ k : ℤ) : ℚ) := by
      exact_mod_cast r1
    have r2' : ((-((2 : ℤ) ^ k) : ℤ) : ℚ) ≤ (roundEven (x / ulp p emin x) : ℚ) := by
      exact_mod_cast r2
    rw [hN, abs_mul, abs_of_pos hu]
    apply mul_le_mul_of_nonneg_right _ (le_of_lt hu)
    rw [abs_le]
    constructor
    · push_cast at r2' ⊢; exact r2'
    · exact r1'

theorem fl32_nonneg {x : ℚ} (h : 0 ≤ x) : 0 ≤ fl32 x := roundTo_nonneg 24 (-126) h

theorem fl64_nonneg {x : ℚ} (h : 0 ≤ x) : 0 ≤ fl64 x := roundTo_nonneg 53 (-1022) h

theorem fl32_zero : fl32 0 = 0 := roundTo_zero 24 (-126)

theorem fl32_err_le_one {x : ℚ} (h : |x| ≤ 1) : |fl32 x - x| ≤ 1 / 16777216 := by
  have := roundTo_err 24 (-126) (x := x) (j := 0) (by simpa using h) (by norm_num)
  norm_num at this
  exact this

theorem fl32_err_le_two {x : ℚ} (h : |x| ≤ 2) : |fl32 x - x| ≤ 1 / 8388608 := by
  have := roundTo_err 24 (-126) (x := x) (j := 1) (by simpa using h) (by norm_num)
  norm_num at this
  exact this

theorem fl32_err_le_eight {x : ℚ} (h : |x| ≤ 8) : |fl32 x - x| ≤ 1 / 2097152 := by
  have := roundTo_err 24 (-126) (x := x) (j := 3) (by norm_num; exact h) (by norm_num)
  norm_num at this
  exact this

theorem fl32_err_le_512 {x : ℚ} (h : |x| ≤ 512) : |fl32 x - x| ≤ 1 / 32768 := by
  have := roundTo_err 24 (-126) (x := x) (j := 9) (by norm_num; exact h) (by norm_num)
  norm_num at this
  exact this

theorem fl64_err_le_one {x : ℚ} (h : |x| ≤ 1) : |fl64 x - x| ≤ 1 / 9007199254740992 := by
  have := roundTo_err 53 (-1022) (x := x) (j := 0) (by simpa using h) (by norm_num)
  norm_num at this
  exact this

theorem fl32_abs_le_one {x : ℚ} (h : |x| ≤ 1) : |fl32 x| ≤ 1 := by
  have := roundTo_abs_le 24 (by norm_num) (-126) (x := x) (j := 0) (by simpa using h)
    (by norm_num)
  simpa using this

theorem fl32_abs_le_two {x : ℚ} (h : |x| ≤ 2) : |fl32 x| ≤ 2 := by
  have := roundTo_abs_le 24 (by norm_num) (-126) (x := x) (j := 1) (by simpa using h)
    (by norm_num)
  simpa using this

theorem fl64_abs_le_one {x : ℚ} (h : |x| ≤ 1) : |fl64 x| ≤ 1 := by
  have := roundTo_abs_le 53 (by norm_num) (-1022) (x := x) (j := 0) (by simpa using h)
    (by norm_num)
  simpa using this

theorem fl32_unit {x : ℚ} (h0 : 0 ≤ x) (h1 : x ≤ 1) : 0 ≤ fl32 x ∧ fl32 x ≤ 1 :=
  ⟨fl32_nonneg h0, (abs_le.mp (fl32_abs_le_one (abs_le.mpr ⟨by linarith, h1⟩))).2⟩

theorem fl64_unit {x : ℚ} (h0 : 0 ≤ x) (h1 : x ≤ 1) : 0 ≤ fl64 x ∧ fl64 x ≤ 1 :=
  ⟨fl64_nonneg h0, (abs_le.mp (fl64_abs_le_one (abs_le.mpr ⟨by linarith, h1⟩))).2⟩

/-! ## The error of the HSL to RGB conversion in binary32 -/

theorem chroma32_bounds {hsl : ColorHSL_t} (hd : hsl.InDomain) :
    (0 ≤ Binary32.chroma hsl ∧ Binary32.chroma hsl ≤ 1) ∧
      |Binary32.chroma hsl - chroma hsl| ≤ 5 / 16777216 := by
  obtain ⟨_, ⟨hs0, hs1⟩, hl0, hl1⟩ := hd
  have a1_abs : |fl32 (2 * hsl.lightness)| ≤ 2 :=
    fl32_abs_le_two (abs_le.mpr ⟨by linarith, by linarith⟩)
  have a1_0 : 0 ≤ fl32 (2 * hsl.lightness) := fl32_nonneg (by linarith)
  have a1_e := fl32_err_le_two (x := 2 * hsl.lightness) (abs_le.mpr ⟨by linarith, by linarith⟩)
  have a1_2 := (abs_le.mp a1_abs).2
  have u_in : |fl32 (2 * hsl.lightness) - 1| ≤ 1 := abs_le.mpr ⟨by linarith, by linarith⟩
  have u_abs := fl32_abs_le_one u_in
  have u_e := fl32_err_le_one u_in
  have v_in0 : 0 ≤ 1 - |fl32 (fl32 (2 * hsl.lightness) - 1)| := by linarith
  have v_in1 : 1 - |fl32 (fl32 (2 * hsl.lightness) - 1)| ≤ 1 := by
    linarith [abs_nonneg (fl32 (fl32 (2 * hsl.lightness) - 1))]
  obtain ⟨v0, v1⟩ := fl32_unit v_in0 v_in1
  have v_e := fl32_err_le_one (x := 1 - |fl32 (fl32 (2 * hsl.lightness) - 1)|)
    (abs_le.mpr ⟨by linarith, by linarith⟩)
  have c_in0 : 0 ≤ fl32 (1 - |fl32 (fl32 (2 * hsl.lightness) - 1)|) * hsl.saturation :=
    mul_nonneg v0 hs0
  have c_in1 : fl32 (1 - |fl32 (fl32 (2 * hsl.lightness) - 1)|) * hsl.saturation ≤ 1 := by
    nlinarith
  have c_u := fl32_unit c_in0 c_in1
  have c_e := fl32_err_le_one
    (x := fl32 (1 - |fl32 (fl32 (2 * hsl.lightness) - 1)|) * hsl.saturation)
    (abs_le.mpr ⟨by linarith, by linarith⟩)
  have abs_e : |(|fl32 (fl32 (2 * hsl.lightness) - 1)| - |2 * hsl.lightness - 1|)| ≤
      3 / 16777216 := by
    refine le_trans (abs_abs_sub_abs_le_abs_sub _ _) ?_
    have t1 := abs_le.mp u_e
    have t2 := abs_le.mp a1_e
    exact abs_le.mpr ⟨by linarith [t1.1, t2.1], by linarith [t1.2, t2.2]⟩
  have t3 := abs_le.mp abs_e
  have t4 := abs_le.mp v_e
  have t5 := abs_le.mp c_e
  have hv : |fl32 (1 - |fl32 (fl32 (2 * hsl.lightness) - 1)|) - (1 - |2 * hsl.lightness - 1|)| ≤
      4 / 16777216 := abs_le.mpr ⟨by linarith [t3.1, t3.2, t4.1], by linarith [t3.1, t3.2, t4.2]⟩
  have t6 := abs_le.mp hv
  refine ⟨by simpa only [Binary32.chroma, fabs] using c_u, ?_⟩
  simp only [Binary32.chroma, chroma, fabs]
  rw [abs_le]
  constructor
  · nlinarith [t5.1, t6.1, t6.2]
  · nlinarith [t5.2, t6.1, t6.2]

theorem offset32_bounds {hsl : ColorHSL_t} (hd : hsl.InDomain) :
    |Binary32.offset hsl| ≤ 1 ∧ |Binary32.offset hsl - offset hsl| ≤ 5 / 16777216 := by
  obtain ⟨⟨c0, c1⟩, ce⟩ := chroma32_bounds hd
  obtain ⟨_, _, hl0, hl1⟩ := hd
  have hc_in : |Binary32.chroma hsl / 2| ≤ 1 := abs_le.mpr ⟨by linarith, by linarith⟩
  have hc_e := abs_le.mp (fl32_err_le_one hc_in)
  have hc_0 : 0 ≤ fl32 (Binary32.chroma hsl / 2) := fl32_nonneg (by linarith)
  have hc_1 := (abs_le.mp (fl32_abs_le_one hc_in)).2
  have m_in : |hsl.lightness - fl32 (Binary32.chroma hsl / 2)| ≤ 1 :=
    abs_le.mpr ⟨by linarith, by linarith⟩
  have m_e := abs_le.mp (fl32_err_le_one m_in)
  have t := abs_le.mp ce
  refine ⟨by simpa only [Binary32.offset] using fl32_abs_le_one m_in, ?_⟩
  simp only [Binary32.offset, offset]
  rw [abs_le]
  constructor
  · linarith [m_e.1, hc_e.1, hc_e.2, t.1, t.2]
  · linarith [m_e.2, hc_e.1, hc_e.2, t.1, t.2]

theorem sectorArg_nonneg {hsl : ColorHSL_t} (hd : hsl.InDomain) : 0 ≤ Binary32.sectorArg hsl := by
  unfold Binary32.sectorArg
  exact fl32_nonneg (by have := hd.1.1; positivity)

theorem factor_unit {hsl : ColorHSL_t} (hd : hsl.InDomain) :
    0 ≤ Binary32.factor hsl ∧ Binary32.factor hsl ≤ 1 := by
  obtain ⟨f0, f2⟩ := fmod_two_bounds (sectorArg_nonneg hd)
  have w_in : |fmod (Binary32.sectorArg hsl) 2 - 1| ≤ 1 := abs_le.mpr ⟨by linarith, by linarith⟩
  have w_abs := fl64_abs_le_one w_in
  unfold Binary32.factor fabs
  exact fl64_unit (by linarith) (by linarith [abs_nonneg (fl64 (fmod (Binary32.sectorArg hsl) 2 - 1))])

theorem secondary32_bounds {hsl : ColorHSL_t} (hd : hsl.InDomain) :
    (0 ≤ Binary32.secondary hsl ∧ Binary32.secondary hsl ≤ 1) ∧
      |Binary32.secondary hsl - chroma hsl * Binary32.factor hsl| ≤ 7 / 16777216 := by
  obtain ⟨⟨c0, c1⟩, ce⟩ := chroma32_bounds hd
  obtain ⟨k0, k1⟩ := factor_unit hd
  have p_in0 : 0 ≤ Binary32.chroma hsl * Binary32.factor hsl := mul_nonneg c0 k0
  have p_in1 : Binary32.chroma hsl * Binary32.factor hsl ≤ 1 := by nlinarith
  obtain ⟨p0, p1⟩ := fl64_unit p_in0 p_in1
  have p_e := abs_le.mp (fl64_err_le_one (x := Binary32.chroma hsl * Binary32.factor hsl)
    (abs_le.mpr ⟨by linarith, by linarith⟩))
  have x_u := fl32_unit p0 p1
  have x_e := abs_le.mp (fl32_err_le_one (x := fl64 (Binary32.chroma hsl * Binary32.factor hsl))
    (abs_le.mpr ⟨by linarith, by linarith⟩))
  have t := abs_le.mp ce
  refine ⟨by simpa only [Binary32.secondary] using x_u, ?_⟩
  simp only [Binary32.secondary]
  rw [abs_le]
  constructor
  · nlinarith [x_e.1, p_e.1, t.1, t.2]
  · nlinarith [x_e.2, p_e.2, t.1, t.2]

theorem exact_unit {hsl : ColorHSL_t} (hd : hsl.InDomain) {a : ℚ} (a0 : 0 ≤ a) (a1 : a ≤ 1) :
    0 ≤ chroma hsl * a + offset hsl ∧ chroma hsl * a + offset hsl ≤ 1 := by
  obtain ⟨c0, c1, c2⟩ := chroma_bounds hd
  unfold offset
  constructor
  · nlinarith [mul_nonneg c0 a0]
  · nlinarith [mul_nonneg c0 (sub_nonneg.mpr a1)]

/-- The value `(t + m) * 255` computed in binary32 is within 1/4096 of the
exact value, when `t` is within 7 / 2 ^ 24 of the exact entry `c * a`. -/
theorem channel32_err {hsl : ColorHSL_t} (hd : hsl.InDomain) {t a : ℚ}
    (ht : 0 ≤ t ∧ t ≤ 1) (hta : |t - chroma hsl * a| ≤ 7 / 16777216) :
    |Binary32.channel t (Binary32.offset hsl) - (chroma hsl * a + offset hsl) * 255| ≤
      1 / 4096 := by
  obtain ⟨m_abs, m_e⟩ := offset32_bounds hd
  have m1 := abs_le.mp m_abs
  have m2 := abs_le.mp m_e
  have t2 := abs_le.mp hta
  have s_in : |t + Binary32.offset hsl| ≤ 2 := abs_le.mpr ⟨by linarith, by linarith⟩
  have s_abs := abs_le.mp (fl32_abs_le_two s_in)
  have s_e := abs_le.mp (fl32_err_le_two s_in)
  have v_in : |fl32 (t + Binary32.offset hsl) * 255| ≤ 512 :=
    abs_le.mpr ⟨by linarith, by linarith⟩
  have v_e := abs_le.mp (fl32_err_le_512 v_in)
  unfold Binary32.channel
  rw [abs_le]
  constructor
  · linarith [v_e.1, s_e.1, m2.1, t2.1]
  · linarith [v_e.2, s_e.2, m2.2, t2.2]

theorem channel32_range {hsl : ColorHSL_t} (hd : hsl.InDomain) {t a : ℚ}
    (ht : 0 ≤ t ∧ t ≤ 1) (hta : |t - chroma hsl * a| ≤ 7 / 16777216)
    (a0 : 0 ≤ a) (a1 : a ≤ 1) :
    -(1 / 4096) ≤ Binary32.channel t (Binary32.offset hsl) ∧
      Binary32.channel t (Binary32.offset hsl) ≤ 255 + 1 / 4096 := by
  have e := abs_le.mp (channel32_err hd ht hta)
  obtain ⟨u0, u1⟩ := exact_unit hd a0 a1
  constructor
  · linarith [e.1]
  · linarith [e.2]

/-- Each entry of the sector triple in binary32 has a value `(t + m) * 255`
within 1/4096 of [0, 255]. -/
theorem entry32_range {hsl : ColorHSL_t} (hd : hsl.InDomain) {t : ℚ}
    (ht : t = Binary32.chroma hsl ∨ t = Binary32.secondary hsl ∨ t = 0) :
    -(1 / 4096) ≤ Binary32.channel t (Binary32.offset hsl) ∧
      Binary32.channel t (Binary32.offset hsl) ≤ 255 + 1 / 4096 := by
  obtain ⟨cu, ce⟩ := chroma32_bounds hd
  obtain ⟨xu, xe⟩ := secondary32_bounds hd
  obtain ⟨k0, k1⟩ := factor_unit hd
  rcases ht with rfl | rfl | rfl
  · refine channel32_range hd cu (a := 1) ?_ (by norm_num) (le_refl 1)
    rw [mul_one]
    exact le_trans ce (by norm_num)
  · exact channel32_range hd xu xe k0 k1
  · refine channel32_range hd ⟨le_refl 0, by norm_num⟩ (a := 0) ?_ (le_refl 0) (by norm_num)
    rw [mul_zero, sub_zero, abs_zero]
    norm_num

theorem toUInt8_of_near {v : ℚ} (h0 : -1 < v) (h1 : v < 256) :
    toUInt8 v = some (trunc v).toNat := by
  have ht0 : 0 ≤ trunc v := by
    unfold trunc
    split_ifs with h
    · exact Int.floor_nonneg.mpr h
    · have : (-1 : ℤ) < ⌈v⌉ := Int.lt_ceil.mpr (by push_cast; exact h0)
      omega
  have ht1 : trunc v ≤ 255 := by
    unfold trunc
    split_ifs with h
    · have : ⌊v⌋ < 256 := Int.floor_lt.mpr (by push_cast; exact h1)
      omega
    · have : ⌈v⌉ ≤ 0 := Int.ceil_le.mpr (by push_cast; linarith)
      omega
  simp [toUInt8, ht0, ht1]

/-- A `float` value below 360 is at most `360 - 2 ^ (-15)`. -/
theorem float_lt_360 {x : ℚ} (hx : IsFloat32 x) (h : x < 360) : x ≤ 360 - 1 / 32768 := by
  by_cases h256 : x < 256
  · linarith
  · have hx256 : 256 ≤ x := not_lt.mp h256
    have hne : x ≠ 0 := by linarith
    have habs : |x| = x := abs_of_pos (by linarith)
    obtain ⟨e1, e2⟩ := expo_spec x hne
    rw [habs] at e1 e2
    have he8 : 8 ≤ expo x := by
      have : (2 : ℚ) ^ (8 : ℤ) < (2 : ℚ) ^ (expo x + 1) := by
        norm_num
        linarith
      have := (zpow_lt_zpow_iff_right₀ (by norm_num : (1 : ℚ) < 2)).mp this
      omega
    have he9 : expo x < 9 := by
      have : (2 : ℚ) ^ expo x < (2 : ℚ) ^ (9 : ℤ) := by
        norm_num
        linarith
      exact (zpow_lt_zpow_iff_right₀ (by norm_num : (1 : ℚ) < 2)).mp this
    have he : expo x = 8 := by omega
    have hu : ulp 24 (-126) x = 1 / 32768 := by
      unfold ulp
      rw [he]
      norm_num
    unfold IsFloat32 fl32 roundTo at hx
    rw [if_neg hne, hu] at hx
    have hN : ((roundEven (x / (1 / 32768)) : ℤ) : ℚ) < ((11796480 : ℤ) : ℚ) := by
      push_cast
      linarith
    have hN' : roundEven (x / (1 / 32768)) ≤ 11796479 := by
      have : roundEven (x / (1 / 32768)) < 11796480 := by exact_mod_cast hN
      omega
    have hN'' : ((roundEven (x / (1 / 32768)) : ℤ) : ℚ) ≤ ((11796479 : ℤ) : ℚ) := by
      exact_mod_cast hN'
    push_cast at hN''
    linarith

theorem sectorArg_lt_six {hsl : ColorHSL_t} (hd : hsl.InDomain)
    (hf : IsFloat32 hsl.hue) : Binary32.sectorArg hsl < 6 := by
  have h1 := float_lt_360 hf hd.1.2
  have h0 := hd.1.1
  have hin : |hsl.hue / 60| ≤ 8 := by
    rw [abs_le]
    constructor
    · have : 0 ≤ hsl.hue / 60 := by positivity
      linarith
    · rw [div_le_iff₀ (by norm_num)]; linarith
  have e := abs_le.mp (fl32_err_le_eight hin)
  have h2 : hsl.hue / 60 ≤ 6 - 1 / 1966080 := by
    rw [div_le_iff₀ (by norm_num)]; linarith
  unfold Binary32.sectorArg
  linarith [e.2]

/-- What `setHSL` stores in binary32 for an argument in the domain, once a
sector is selected: the argument itself, and the three truncated channel values
in the positions of `{..., ..., ...}`. -/
theorem setHSL32_eq (o : FieldOrder) (c : Color) {hsl : ColorHSL_t} (hd : hsl.InDomain)
    {tr tg tb : ℚ}
    (hs : sector (Binary32.sectorArg hsl) (Binary32.chroma hsl) (Binary32.secondary hsl) =
      some (tr, tg, tb)) :
    Binary32.setHSL o c hsl = some
      { _hsl := hsl
        _rgb := ColorRGB_t.braces o (trunc (Binary32.channel tr (Binary32.offset hsl))).toNat
          (trunc (Binary32.channel tg (Binary32.offset hsl))).toNat
          (trunc (Binary32.channel tb (Binary32.offset hsl))).toNat } := by
  obtain ⟨er, eg, eb⟩ := sector_entries hs
  obtain ⟨r0, r1⟩ := entry32_range hd er
  obtain ⟨g0, g1⟩ := entry32_range hd eg
  obtain ⟨b0, b1⟩ := entry32_range hd eb
  simp only [Binary32.setHSL, Binary32._convertHSLtoRGB, ColorHSL_t.braces, hs,
    toUInt8_of_near (by linarith : -1 < Binary32.channel tr (Binary32.offset hsl))
      (by linarith : Binary32.channel tr (Binary32.offset hsl) < 256),
    toUInt8_of_near (by linarith : -1 < Binary32.channel tg (Binary32.offset hsl))
      (by linarith : Binary32.channel tg (Binary32.offset hsl) < 256),
    toUInt8_of_near (by linarith : -1 < Binary32.channel tb (Binary32.offset hsl))
      (by linarith : Binary32.channel tb (Binary32.offset hsl) < 256)]

theorem sector32_isSome {hsl : ColorHSL_t} (hd : hsl.InDomain) (hf : IsFloat32 hsl.hue)
    (c x : ℚ) : ∃ t, sector (Binary32.sectorArg hsl) c x = some t :=
  sector_isSome c x (sectorArg_nonneg hd) (sectorArg_lt_six hd hf)

/-- The sector selection is positional: entries related to `c`, `x` and 0 give
related triples. -/
theorem sector_rel {R : ℚ → ℚ → Prop} {h c x c2 x2 : ℚ} (hc : R c c2) (hx : R x x2)
    (h0 : R 0 0) {tr tg tb : ℚ} (hs : sector h c x = some (tr, tg, tb)) :
    ∃ tr2 tg2 tb2, sector h c2 x2 = some (tr2, tg2, tb2) ∧ R tr tr2 ∧ R tg tg2 ∧ R tb tb2 := by
  unfold sector at hs ⊢
  split_ifs at hs ⊢ <;> simp only [Option.some.injEq, Prod.mk.injEq] at hs <;>
    obtain ⟨rfl, rfl, rfl⟩ := hs
  · exact ⟨_, _, _, rfl, hc, hx, h0⟩
  · exact ⟨_, _, _, rfl, hx, hc, h0⟩
  · exact ⟨_, _, _, rfl, h0, hc, hx⟩
  · exact ⟨_, _, _, rfl, h0, hx, hc⟩
  · exact ⟨_, _, _, rfl, hx, h0, hc⟩
  · exact ⟨_, _, _, rfl, hc, h0, hx⟩

theorem trunc_toNat_le_succ {v1 v2 : ℚ} (h : v1 ≤ v2 + 1 / 2) :
    (trunc v1).toNat ≤ (trunc v2).toNat + 1 := by
  by_cases hv : v1 < 1
  · have : trunc v1 ≤ 0 := by
      unfold trunc
      split_ifs with h0
      · have : ⌊v1⌋ < 1 := Int.floor_lt.mpr (by push_cast; exact hv)
        omega
      · exact Int.ceil_le.mpr (by push_cast; linarith)
    omega
  · have hv1 : 1 ≤ v1 := not_lt.mp hv
    have hv2 : 0 ≤ v2 := by linarith
    rw [trunc_of_nonneg (by linarith : (0 : ℚ) ≤ v1), trunc_of_nonneg hv2]
    have h3 : ⌊v1⌋ ≤ ⌊v2 + 1⌋ := Int.floor_mono (by linarith)
    rw [Int.floor_add_one] at h3
    omega

/-- In binary32 a channel value falls by at most one unit when the lightness
rises: the exact values are ordered and each computed value is within 1/4096 of
its exact value. -/
theorem channel32_near_mono (h s l1 l2 : ℚ) (hh : 0 ≤ h ∧ h < 360) (hs : 0 ≤ s ∧ s ≤ 1)
    (h1 : 0 ≤ l1) (h12 : l1 ≤ l2) (h2 : l2 ≤ 1) {t1 t2 a : ℚ} (a0 : 0 ≤ a) (a1 : a ≤ 1)
    (ht1 : 0 ≤ t1 ∧ t1 ≤ 1) (ht2 : 0 ≤ t2 ∧ t2 ≤ 1)
    (e1 : |t1 - chroma ⟨h, s, l1⟩ * a| ≤ 7 / 16777216)
    (e2 : |t2 - chroma ⟨h, s, l2⟩ * a| ≤ 7 / 16777216) :
    (trunc (Binary32.channel t1 (Binary32.offset ⟨h, s, l1⟩))).toNat ≤
      (trunc (Binary32.channel t2 (Binary32.offset ⟨h, s, l2⟩))).toNat + 1 := by
  have d1 : ColorHSL_t.InDomain ⟨h, s, l1⟩ := ⟨hh, hs, h1, le_trans h12 h2⟩
  have d2 : ColorHSL_t.InDomain ⟨h, s, l2⟩ := ⟨hh, hs, le_trans h1 h12, h2⟩
  have c1 := abs_le.mp (channel32_err d1 ht1 e1)
  have c2 := abs_le.mp (channel32_err d2 ht2 e2)
  have hm := channel_mono h s l1 l2 a hs.1 hs.2 h12 a0 a1
  apply trunc_toNat_le_succ
  linarith [c1.2, c2.1]

/-! ## The range of the RGB to HSL conversion in binary32 -/

theorem fl32_one : fl32 1 = 1 := by decide!

theorem fl32_two : fl32 2 = 2 := by decide!

theorem normalise_bounds {v : Nat} (hv : v ≤ 255) :
    (0 ≤ Binary32.normalise v ∧ Binary32.normalise v ≤ 1) ∧
      |Binary32.normalise v - (v : ℚ) / 255| ≤ 1 / 16777216 := by
  have h0 : (0 : ℚ) ≤ (v : ℚ) / 255 := by positivity
  have h1 : (v : ℚ) / 255 ≤ 1 := by
    rw [div_le_one (by norm_num)]; exact_mod_cast hv
  unfold Binary32.normalise UINT8_MAX
  exact ⟨fl32_unit h0 h1, fl32_err_le_one (abs_le.mpr ⟨by linarith, h1⟩)⟩

theorem braces_maxn32 (o : FieldOrder) (rgb : ColorRGB_t) :
    Binary32.maxn (ColorRGB_t.braces o rgb.red rgb.blue rgb.green) = Binary32.maxn rgb := by
  cases o <;> simp only [Binary32.maxn, ColorRGB_t.braces, fmax] <;> ac_rfl

theorem braces_minn32 (o : FieldOrder) (rgb : ColorRGB_t) :
    Binary32.minn (ColorRGB_t.braces o rgb.red rgb.blue rgb.green) = Binary32.minn rgb := by
  cases o <;> simp only [Binary32.minn, ColorRGB_t.braces, fmin] <;> ac_rfl

theorem lightness32_unit {M m : ℚ} (m0 : 0 ≤ m) (mM : m ≤ M) (M1 : M ≤ 1) :
    (0 ≤ Binary32.lightnessOf M m ∧ Binary32.lightnessOf M m ≤ 1) ∧
      |Binary32.lightnessOf M m - (M + m) / 2| ≤ 2 / 16777216 := by
  have s_in : |M + m| ≤ 2 := abs_le.mpr ⟨by linarith, by linarith⟩
  have s_0 : 0 ≤ fl32 (M + m) := fl32_nonneg (by linarith)
  have s_2 := (abs_le.mp (fl32_abs_le_two s_in)).2
  have s_e := abs_le.mp (fl32_err_le_two s_in)
  have l_e := abs_le.mp (fl32_err_le_one (x := fl32 (M + m) / 2)
    (abs_le.mpr ⟨by linarith, by linarith⟩))
  unfold Binary32.lightnessOf
  refine ⟨fl32_unit (by linarith) (by linarith), ?_⟩
  rw [abs_le]
  constructor
  · linarith [l_e.1, s_e.1]
  · linarith [l_e.2, s_e.2]

theorem divisor32_err {l : ℚ} (l0 : 0 ≤ l) (l1 : l ≤ 1) :
    (0 ≤ Binary32.divisor l ∧ Binary32.divisor l ≤ 1) ∧
      |Binary32.divisor l - (1 - |2 * l - 1|)| ≤ 4 / 16777216 := by
  have a1_in : |2 * l| ≤ 2 := abs_le.mpr ⟨by linarith, by linarith⟩
  have a1_0 : 0 ≤ fl32 (2 * l) := fl32_nonneg (by linarith)
  have a1_2 := (abs_le.mp (fl32_abs_le_two a1_in)).2
  have a1_e := abs_le.mp (fl32_err_le_two a1_in)
  have u_in : |fl32 (2 * l) - 1| ≤ 1 := abs_le.mpr ⟨by linarith, by linarith⟩
  have u_abs := fl32_abs_le_one u_in
  have u_e := abs_le.mp (fl32_err_le_one u_in)
  have v_in0 : 0 ≤ 1 - |fl32 (fl32 (2 * l) - 1)| := by linarith
  have v_in1 : 1 - |fl32 (fl32 (2 * l) - 1)| ≤ 1 := by
    linarith [abs_nonneg (fl32 (fl32 (2 * l) - 1))]
  have v_e := abs_le.mp (fl32_err_le_one (x := 1 - |fl32 (fl32 (2 * l) - 1)|)
    (abs_le.mpr ⟨by linarith, by linarith⟩))
  have abs_e : |(|fl32 (fl32 (2 * l) - 1)| - |2 * l - 1|)| ≤ 3 / 16777216 := by
    refine le_trans (abs_abs_sub_abs_le_abs_sub _ _) ?_
    exact abs_le.mpr ⟨by linarith [u_e.1, a1_e.1], by linarith [u_e.2, a1_e.2]⟩
  have t3 := abs_le.mp abs_e
  unfold Binary32.divisor fabs
  refine ⟨fl32_unit v_in0 v_in1, ?_⟩
  rw [abs_le]
  constructor
  · linarith [v_e.1, t3.1, t3.2]
  · linarith [v_e.2, t3.1, t3.2]

/-- The range of the lightness and the saturation computed in binary32 from the
largest and smallest normalised channels. -/
theorem range32_core {M m : ℚ} (m0 : 0 ≤ m) (mM : m ≤ M) (M1 : M ≤ 1)
    (hcase : (M = 0 ∧ m = 0) ∨ (M = 1 ∧ m = 1) ∨
      (1 / 255 - 1 / 16777216 ≤ M ∧ m ≤ 254 / 255 + 1 / 16777216)) :
    (0 ≤ Binary32.lightnessOf M m ∧ Binary32.lightnessOf M m ≤ 1) ∧
      (0 ≤ Binary32.saturationOf M m ∧ Binary32.saturationOf M m ≤ 1 + 1 / 4096) := by
  obtain ⟨⟨l0, l1⟩, le⟩ := lightness32_unit m0 mM M1
  refine ⟨⟨l0, l1⟩, ?_⟩
  unfold Binary32.saturationOf
  split_ifs with hbr
  · rcases hcase with ⟨rfl, rfl⟩ | ⟨rfl, rfl⟩ | ⟨hM, hm⟩
    · exfalso
      have : Binary32.lightnessOf 0 0 = 0 := by
        simp [Binary32.lightnessOf, fl32_zero]
      linarith [hbr.1]
    · exfalso
      have : Binary32.lightnessOf 1 1 = 1 := by
        have e : (1 : ℚ) + 1 = 2 := by norm_num
        simp only [Binary32.lightnessOf, e, fl32_two]
        norm_num
        exact fl32_one
      linarith [hbr.2]
    · obtain ⟨⟨den0, den1⟩, dene⟩ := divisor32_err l0 l1
      have t1 := abs_le.mp dene
      have t2 := abs_le.mp le
      have d_in0 : 0 ≤ M - m := by linarith
      have d_in1 : M - m ≤ 1 := by linarith
      obtain ⟨d0, d1⟩ := fl32_unit d_in0 d_in1
      have d_e := abs_le.mp (fl32_err_le_one (x := M - m) (abs_le.mpr ⟨by linarith, d_in1⟩))
      have habs : |(|2 * Binary32.lightnessOf M m - 1| - |M + m - 1|)| ≤ 4 / 16777216 := by
        refine le_trans (abs_abs_sub_abs_le_abs_sub _ _) ?_
        exact abs_le.mpr ⟨by linarith [t2.1], by linarith [t2.2]⟩
      have t3 := abs_le.mp habs
      have hD1 : |M + m - 1| ≤ 1 - (M - m) := abs_le.mpr ⟨by linarith, by linarith⟩
      have hD2 : |M + m - 1| ≤ 1 - 1 / 255 + 2 / 16777216 :=
        abs_le.mpr ⟨by linarith, by linarith⟩
      have den_lb : 1 / 256 ≤ Binary32.divisor (Binary32.lightnessOf M m) := by
        have : (1 : ℚ) / 256 ≤ 1 / 255 - 10 / 16777216 := by norm_num
        linarith [t1.1, t3.2]
      have den_pos : 0 < Binary32.divisor (Binary32.lightnessOf M m) := by linarith
      have q0 : 0 ≤ fl32 (M - m) / Binary32.divisor (Binary32.lightnessOf M m) :=
        div_nonneg d0 (le_of_lt den_pos)
      have q1 : fl32 (M - m) / Binary32.divisor (Binary32.lightnessOf M m) ≤
          1 + 2304 / 16777216 := by
        rw [div_le_iff₀ den_pos]
        nlinarith [d_e.2, t1.1, t3.2, den_lb]
      have q_e := abs_le.mp (fl32_err_le_two
        (x := fl32 (M - m) / Binary32.divisor (Binary32.lightnessOf M m))
        (abs_le.mpr ⟨by linarith, by linarith⟩))
      constructor
      · exact fl32_nonneg q0
      · linarith [q_e.2]
  · exact ⟨le_refl 0, by norm_num⟩

theorem maxmin32_cases {rgb : ColorRGB_t} (hr : rgb.InRange) :
    (0 ≤ Binary32.minn rgb ∧ Binary32.minn rgb ≤ Binary32.maxn rgb ∧ Binary32.maxn rgb ≤ 1) ∧
      ((Binary32.maxn rgb = 0 ∧ Binary32.minn rgb = 0) ∨
        (Binary32.maxn rgb = 1 ∧ Binary32.minn rgb = 1) ∨
        (1 / 255 - 1 / 16777216 ≤ Binary32.maxn rgb ∧
          Binary32.minn rgb ≤ 254 / 255 + 1 / 16777216)) := by
  obtain ⟨h1, h2, h3⟩ := hr
  obtain ⟨⟨r0, r1⟩, re⟩ := normalise_bounds h1
  obtain ⟨⟨g0, g1⟩, ge⟩ := normalise_bounds h2
  obtain ⟨⟨b0, b1⟩, be⟩ := normalise_bounds h3
  have re' := abs_le.mp re
  have ge' := abs_le.mp ge
  have be' := abs_le.mp be
  have hmaxr : Binary32.normalise rgb.red ≤ Binary32.maxn rgb := le_max_left _ _
  have hmaxb : Binary32.normalise rgb.blue ≤ Binary32.maxn rgb :=
    le_trans (le_max_left _ _) (le_max_right _ _)
  have hmaxg : Binary32.normalise rgb.green ≤ Binary32.maxn rgb :=
    le_trans (le_max_right _ _) (le_max_right _ _)
  have hminr : Binary32.minn rgb ≤ Binary32.normalise rgb.red := min_le_left _ _
  have hminb : Binary32.minn rgb ≤ Binary32.normalise rgb.blue :=
    le_trans (min_le_right _ _) (min_le_left _ _)
  have hming : Binary32.minn rgb ≤ Binary32.normalise rgb.green :=
    le_trans (min_le_right _ _) (min_le_right _ _)
  have hmin0 : 0 ≤ Binary32.minn rgb := le_min r0 (le_min b0 g0)
  have hmax1 : Binary32.maxn rgb ≤ 1 := max_le r1 (max_le b1 g1)
  refine ⟨⟨hmin0, le_trans hminr hmaxr, hmax1⟩, ?_⟩
  have tri : (rgb.red = 0 ∧ rgb.green = 0 ∧ rgb.blue = 0) ∨
      (rgb.red = 255 ∧ rgb.green = 255 ∧ rgb.blue = 255) ∨
      ((1 ≤ rgb.red ∨ 1 ≤ rgb.green ∨ 1 ≤ rgb.blue) ∧
        (rgb.red ≤ 254 ∨ rgb.green ≤ 254 ∨ rgb.blue ≤ 254)) := by omega
  rcases tri with ⟨e1, e2, e3⟩ | ⟨e1, e2, e3⟩ | ⟨hge, hle⟩
  · left
    have z : Binary32.normalise 0 = 0 := by
      simp [Binary32.normalise, fl32_zero]
    simp only [Binary32.maxn, Binary32.minn, e1, e2, e3, z, fmax, fmin, max_self, min_self,
      and_self]
  · right; left
    have z : Binary32.normalise 255 = 1 := by
      simp only [Binary32.normalise, UINT8_MAX]
      norm_num
      exact fl32_one
    simp only [Binary32.maxn, Binary32.minn, e1, e2, e3, z, fmax, fmin, max_self, min_self,
      and_self]
  · right; right
    constructor
    · rcases hge with h | h | h
      · have : (1 : ℚ) ≤ (rgb.red : ℚ) := by exact_mod_cast h
        have : (1 : ℚ) / 255 ≤ (rgb.red : ℚ) / 255 := by
          apply div_le_div_of_nonneg_right this (by norm_num)
        linarith [re'.1]
      · have : (1 : ℚ) ≤ (rgb.green : ℚ) := by exact_mod_cast h
        have : (1 : ℚ) / 255 ≤ (rgb.green : ℚ) / 255 := by
          apply div_le_div_of_nonneg_right this (by norm_num)
        linarith [ge'.1]
      · have : (1 : ℚ) ≤ (rgb.blue : ℚ) := by exact_mod_cast h
        have : (1 : ℚ) / 255 ≤ (rgb.blue : ℚ) / 255 := by
          apply div_le_div_of_nonneg_right this (by norm_num)
        linarith [be'.1]
    · rcases hle with h | h | h
      · have : (rgb.red : ℚ) ≤ 254 := by exact_mod_cast h
        have : (rgb.red : ℚ) / 255 ≤ 254 / 255 := by
          apply div_le_div_of_nonneg_right this (by norm_num)
        linarith [re'.2]
      · have : (rgb.green : ℚ) ≤ 254 := by exact_mod_cast h
        have : (rgb.green : ℚ) / 255 ≤ 254 / 255 := by
          apply div_le_div_of_nonneg_right this (by norm_num)
        linarith [ge'.2]
      · have : (rgb.blue : ℚ) ≤ 254 := by exact_mod_cast h
        have : (rgb.blue : ℚ) / 255 ≤ 254 / 255 := by
          apply div_le_div_of_nonneg_right this (by norm_num)
        linarith [be'.2]

theorem toNat_trunc_le_255 {v : ℚ} (h1 : v < 256) : (trunc v).toNat ≤ 255 := by
  have : trunc v ≤ 255 := by
    unfold trunc
    split_ifs with h
    · have : ⌊v⌋ < 256 := Int.floor_lt.mpr (by push_cast; exact h1)
      omega
    · have : ⌈v⌉ ≤ 0 := Int.ceil_le.mpr (by push_cast; linarith)
      omega
  omega

/-! ## The claims that rounding decides -/

/-- C7 (as stated it fails): in binary32 the sum red + green + blue falls from
595 to 594 when the lightness rises from 12871627 / 2 ^ 24 to 12871629 / 2 ^ 24
at hue 10641435 / 2 ^ 15 and saturation 7116787 / 2 ^ 23, all `float` values in
the domain. -/
theorem setHSL32_sum_falls :
    ColorHSL_t.InDomain ⟨10641435 / 32768, 7116787 / 8388608, 12871627 / 16777216⟩ ∧
      ColorHSL_t.IsFloat32 ⟨10641435 / 32768, 7116787 / 8388608, 12871627 / 16777216⟩ ∧
      ColorHSL_t.InDomain ⟨10641435 / 32768, 7116787 / 8388608, 12871629 / 16777216⟩ ∧
      ColorHSL_t.IsFloat32 ⟨10641435 / 32768, 7116787 / 8388608, 12871629 / 16777216⟩ ∧
      (12871627 / 16777216 : ℚ) ≤ 12871629 / 16777216 ∧
      ¬ Binary32.SumMonotoneAt declaredOrder (Color.init declaredOrder)
        (Color.init declaredOrder) (10641435 / 32768) (7116787 / 8388608)
        (12871627 / 16777216) (12871629 / 16777216) := by
  refine ⟨by decide!, by decide!, by decide!, by decide!, by norm_num, ?_⟩
  rintro ⟨a, b, ha, hb, hab⟩
  have e1 : Binary32.setHSL declaredOrder (Color.init declaredOrder)
      ⟨10641435 / 32768, 7116787 / 8388608, 12871627 / 16777216⟩ =
      some ⟨⟨10641435 / 32768, 7116787 / 8388608, 12871627 / 16777216⟩, ⟨246, 145, 204⟩⟩ := by
    decide!
  have e2 : Binary32.setHSL declaredOrder (Color.init declaredOrder)
      ⟨10641435 / 32768, 7116787 / 8388608, 12871629 / 16777216⟩ =
      some ⟨⟨10641435 / 32768, 7116787 / 8388608, 12871629 / 16777216⟩, ⟨245, 145, 204⟩⟩ := by
    decide!
  rw [e1] at ha
  rw [e2] at hb
  cases ha
  cases hb
  simp only [getRGB, ColorRGB_t.sum] at hab
  omega

/-- C7 (amended): in binary32, for every `float` hue in [0, 360), every
saturation in [0, 1] and lightness values `0 ≤ l1 ≤ l2 ≤ 1`, `setHSL` returns
for both lightness values, and the sum red + green + blue read after
`setHSL (hue, saturation, l1)` is at most the sum read after
`setHSL (hue, saturation, l2)` plus 3; for every declaration order and all prior
states. -/
theorem setHSL32_lightness_near_monotone (o : FieldOrder) (c1 c2 : Color) (h s l1 l2 : ℚ)
    (hh : 0 ≤ h ∧ h < 360) (hf : IsFloat32 h) (hs : 0 ≤ s ∧ s ≤ 1) (h1 : 0 ≤ l1)
    (h12 : l1 ≤ l2) (h2 : l2 ≤ 1) :
    ∃ a b, Binary32.setHSL o c1 ⟨h, s, l1⟩ = some a ∧ Binary32.setHSL o c2 ⟨h, s, l2⟩ = some b ∧
      (getRGB a).1.sum ≤ (getRGB b).1.sum + 3 := by
  have d1 : ColorHSL_t.InDomain ⟨h, s, l1⟩ := ⟨hh, hs, h1, le_trans h12 h2⟩
  have d2 : ColorHSL_t.InDomain ⟨h, s, l2⟩ := ⟨hh, hs, le_trans h1 h12, h2⟩
  obtain ⟨cu1, ce1⟩ := chroma32_bounds d1
  obtain ⟨cu2, ce2⟩ := chroma32_bounds d2
  obtain ⟨xu1, xe1⟩ := secondary32_bounds d1
  obtain ⟨xu2, xe2⟩ := secondary32_bounds d2
  obtain ⟨k0, k1⟩ := factor_unit d1
  obtain ⟨⟨tr, tg, tb⟩, hsec1⟩ := sector32_isSome d1 hf (Binary32.chroma ⟨h, s, l1⟩)
    (Binary32.secondary ⟨h, s, l1⟩)
  have Rc : (trunc (Binary32.channel (Binary32.chroma ⟨h, s, l1⟩)
      (Binary32.offset ⟨h, s, l1⟩))).toNat ≤
      (trunc (Binary32.channel (Binary32.chroma ⟨h, s, l2⟩)
        (Binary32.offset ⟨h, s, l2⟩))).toNat + 1 := by
    refine channel32_near_mono h s l1 l2 hh hs h1 h12 h2 (a := 1) (by norm_num) (le_refl 1)
      cu1 cu2 ?_ ?_
    · rw [mul_one]; exact le_trans ce1 (by norm_num)
    · rw [mul_one]; exact le_trans ce2 (by norm_num)
  have Rx : (trunc (Binary32.channel (Binary32.secondary ⟨h, s, l1⟩)
      (Binary32.offset ⟨h, s, l1⟩))).toNat ≤
      (trunc (Binary32.channel (Binary32.secondary ⟨h, s, l2⟩)
        (Binary32.offset ⟨h, s, l2⟩))).toNat + 1 :=
    channel32_near_mono h s l1 l2 hh hs h1 h12 h2 k0 k1 xu1 xu2 xe1 xe2
  have R0 : (trunc (Binary32.channel 0 (Binary32.offset ⟨h, s, l1⟩))).toNat ≤
      (trunc (Binary32.channel 0 (Binary32.offset ⟨h, s, l2⟩))).toNat + 1 := by
    refine channel32_near_mono h s l1 l2 hh hs h1 h12 h2 (a := 0) (le_refl 0) (by norm_num)
      ⟨le_refl 0, by norm_num⟩ ⟨le_refl 0, by norm_num⟩ ?_ ?_
    · rw [mul_zero, sub_zero, abs_zero]; norm_num
    · rw [mul_zero, sub_zero, abs_zero]; norm_num
  obtain ⟨tr2, tg2, tb2, hsec2, hr, hg, hb⟩ :=
    sector_rel (R := fun t1 t2 =>
      (trunc (Binary32.channel t1 (Binary32.offset ⟨h, s, l1⟩))).toNat ≤
        (trunc (Binary32.channel t2 (Binary32.offset ⟨h, s, l2⟩))).toNat + 1)
      Rc Rx R0 hsec1
  have hsec2b : sector (Binary32.sectorArg ⟨h, s, l2⟩) (Binary32.chroma ⟨h, s, l2⟩)
      (Binary32.secondary ⟨h, s, l2⟩) = some (tr2, tg2, tb2) := hsec2
  refine ⟨_, _, setHSL32_eq o c1 d1 hsec1, setHSL32_eq o c2 d2 hsec2b, ?_⟩
  simp only [getRGB, ColorRGB_t.sum]
  rw [braces_sum, braces_sum]
  omega

/-- C7 (amended), at hue 120, saturation 1 and lightness 1/4 and 1/2. -/
theorem setHSL32_lightness_near_monotone_witness :
    IsFloat32 120 ∧
      ∃ a b, Binary32.setHSL declaredOrder (Color.init declaredOrder) ⟨120, 1, 1 / 4⟩ = some a ∧
        Binary32.setHSL declaredOrder (Color.init declaredOrder) ⟨120, 1, 1 / 2⟩ = some b ∧
        (getRGB a).1.sum ≤ (getRGB b).1.sum + 3 :=
  ⟨by decide!,
    setHSL32_lightness_near_monotone declaredOrder (Color.init declaredOrder)
      (Color.init declaredOrder) 120 1 (1 / 4) (1 / 2) (by norm_num) (by decide!) (by norm_num)
      (by norm_num) (by norm_num) (by norm_num)⟩

/-- C8 (as stated it fails): at HSL (0, 0, 0.5), where `(provisional + m) * 255`
is 127.5, the stored channels are not `round` of that value. -/
theorem setHSL32_not_round :
    ¬ Binary32.ChannelsBy round declaredOrder (Color.init declaredOrder) ⟨0, 0, 1 / 2⟩ := by
  rintro ⟨tr, tg, tb, hs, hc⟩
  have e1 : sector (Binary32.sectorArg ⟨0, 0, 1 / 2⟩) (Binary32.chroma ⟨0, 0, 1 / 2⟩)
      (Binary32.secondary ⟨0, 0, 1 / 2⟩) = some (0, 0, 0) := by decide!
  have e2 : (Binary32.setHSL declaredOrder (Color.init declaredOrder) ⟨0, 0, 1 / 2⟩).map
      (fun c2 => (getRGB c2).1) = some ⟨127, 127, 127⟩ := by decide!
  have e3 : (round (Binary32.channel 0 (Binary32.offset ⟨0, 0, 1 / 2⟩))).toNat = 128 := by
    decide!
  rw [e1] at hs
  simp only [Option.some.injEq, Prod.mk.injEq] at hs
  obtain ⟨rfl, rfl, rfl⟩ := hs
  rw [e2, e3] at hc
  simp at hc

/-- C8 (amended): for every HSL value in the domain whose hue is a `float`
value, with `ColorRGB_t` declared red, green, blue, each channel stored by
`setHSL` is the value `(provisional + m) * 255`, as computed in binary32,
truncated toward zero, where provisional is that channel's entry of the sector
triple. -/
theorem setHSL32_channels_trunc (c : Color) (hsl : ColorHSL_t) (hd : hsl.InDomain)
    (hf : IsFloat32 hsl.hue) : Binary32.ChannelsBy trunc declaredOrder c hsl := by
  obtain ⟨⟨tr, tg, tb⟩, hsec⟩ := sector32_isSome hd hf (Binary32.chroma hsl)
    (Binary32.secondary hsl)
  refine ⟨tr, tg, tb, hsec, ?_⟩
  rw [setHSL32_eq declaredOrder c hd hsec]
  rfl

/-- C8 (amended), at HSL (0, 0.2f, 0.5), where the stored channels are
153, 102, 102; at HSL (0, 1, 1/255 as a `float`) they are 1, 0, 0. -/
theorem setHSL32_channels_trunc_witness :
    ColorHSL_t.InDomain ⟨0, 13421773 / 67108864, 1 / 2⟩ ∧ IsFloat32 0 ∧
      Binary32.ChannelsBy trunc declaredOrder (Color.init declaredOrder)
        ⟨0, 13421773 / 67108864, 1 / 2⟩ ∧
      (Binary32.setHSL declaredOrder (Color.init declaredOrder)
        ⟨0, 13421773 / 67108864, 1 / 2⟩).map (fun c2 => (getRGB c2).1) =
        some ⟨153, 102, 102⟩ ∧
      (Binary32.setHSL declaredOrder (Color.init declaredOrder)
        ⟨0, 1, 8421505 / 2147483648⟩).map (fun c2 => (getRGB c2).1) = some ⟨1, 0, 0⟩ :=
  ⟨by decide!, by decide!,
    setHSL32_channels_trunc (Color.init declaredOrder) ⟨0, 13421773 / 67108864, 1 / 2⟩
      (by decide!) (by decide!),
    by decide!, by decide!⟩

/-- C13 (as stated it fails): in binary32, `setRGB (255, 254, 254)` stores the
saturation 65537 / 65536, which is above 1. -/
theorem setRGB32_saturation_above_one :
    ColorRGB_t.InRange ⟨255, 254, 254⟩ ∧
      (getHSL (Binary32.setRGB declaredOrder (Color.init declaredOrder)
        ⟨255, 254, 254⟩)).1.saturation = 65537 / 65536 ∧
      ¬ (getHSL (Binary32.setRGB declaredOrder (Color.init declaredOrder)
        ⟨255, 254, 254⟩)).1.saturation ≤ 1 := by
  refine ⟨by decide, by decide!, by decide!⟩

/-- C13 (amended): in binary32, for every triple with channels in [0, 255], every
declaration order and every prior state, `setRGB` stores the lightness
`(max + min) / 2`, as computed, in [0, 1], and a saturation in [0, 1 + 1/4096],
where `max` and `min` are the largest and smallest normalised channels. -/
theorem setRGB32_ranges (o : FieldOrder) (c : Color) (rgb : ColorRGB_t) (hr : rgb.InRange) :
    (getHSL (Binary32.setRGB o c rgb)).1.lightness =
        Binary32.lightnessOf (Binary32.maxn rgb) (Binary32.minn rgb) ∧
      (0 ≤ (getHSL (Binary32.setRGB o c rgb)).1.lightness ∧
        (getHSL (Binary32.setRGB o c rgb)).1.lightness ≤ 1) ∧
      (0 ≤ (getHSL (Binary32.setRGB o c rgb)).1.saturation ∧
        (getHSL (Binary32.setRGB o c rgb)).1.saturation ≤ 1 + 1 / 4096) := by
  obtain ⟨⟨m0, mM, M1⟩, hcase⟩ := maxmin32_cases hr
  have hl : (getHSL (Binary32.setRGB o c rgb)).1.lightness =
      Binary32.lightnessOf (Binary32.maxn rgb) (Binary32.minn rgb) := by
    rw [← braces_maxn32 o rgb, ← braces_minn32 o rgb]
    rfl
  have hsat : (getHSL (Binary32.setRGB o c rgb)).1.saturation =
      Binary32.saturationOf (Binary32.maxn rgb) (Binary32.minn rgb) := by
    rw [← braces_maxn32 o rgb, ← braces_minn32 o rgb]
    rfl
  obtain ⟨hL, hS⟩ := range32_core m0 mM M1 hcase
  rw [hl, hsat]
  exact ⟨rfl, hL, hS⟩

/-- C13 (amended), at the triple (255, 254, 254). -/
theorem setRGB32_ranges_witness :
    ColorRGB_t.InRange ⟨255, 254, 254⟩ ∧
      (0 ≤ (getHSL (Binary32.setRGB declaredOrder (Color.init declaredOrder)
          ⟨255, 254, 254⟩)).1.saturation ∧
        (getHSL (Binary32.setRGB declaredOrder (Color.init declaredOrder)
          ⟨255, 254, 254⟩)).1.saturation ≤ 1 + 1 / 4096) :=
  ⟨by decide, (setRGB32_ranges declaredOrder (Color.init declaredOrder) ⟨255, 254, 254⟩
    (by decide)).2.2⟩

/-- C15 (as stated it fails): in binary32, at the in-domain `float` value with
hue 4978107 / 2 ^ 15, saturation 16777215 / 2 ^ 24 and lightness
3936505 / 2 ^ 32, the sector triple is (0, c, x) and the computed
`(tr + m) * 255` is negative. -/
theorem convertHSLtoRGB32_negative :
    ColorHSL_t.InDomain ⟨4978107 / 32768, 16777215 / 16777216, 3936505 / 4294967296⟩ ∧
      ColorHSL_t.IsFloat32 ⟨4978107 / 32768, 16777215 / 16777216, 3936505 / 4294967296⟩ ∧
      sector (Binary32.sectorArg ⟨4978107 / 32768, 16777215 / 16777216, 3936505 / 4294967296⟩)
          (Binary32.chroma ⟨4978107 / 32768, 16777215 / 16777216, 3936505 / 4294967296⟩)
          (Binary32.secondary ⟨4978107 / 32768, 16777215 / 16777216, 3936505 / 4294967296⟩) =
        some (0,
          Binary32.chroma ⟨4978107 / 32768, 16777215 / 16777216, 3936505 / 4294967296⟩,
          Binary32.secondary ⟨4978107 / 32768, 16777215 / 16777216, 3936505 / 4294967296⟩) ∧
      Binary32.channel 0
          (Binary32.offset ⟨4978107 / 32768, 16777215 / 16777216, 3936505 / 4294967296⟩) =
        -6885 / 17179869184 ∧
      ¬ 0 ≤ Binary32.channel 0
        (Binary32.offset ⟨4978107 / 32768, 16777215 / 16777216, 3936505 / 4294967296⟩) := by
  refine ⟨by decide!, by decide!, by decide!, by decide!, by decide!⟩

/-- C15 (amended): in binary32, for every HSL value in the domain whose hue is a
`float` value, exactly one of the six sector conditions `i ≤ h < i + 1` holds,
`tr`, `tg`, `tb` are assigned, each of the computed `(tr + m) * 255`,
`(tg + m) * 255`, `(tb + m) * 255` lies within 1/4096 of [0, 255] and converts
to an 8-bit channel without overflow, and `setHSL` has a result. -/
theorem convertHSLtoRGB32_defined (o : FieldOrder) (c : Color) (hsl : ColorHSL_t)
    (hd : hsl.InDomain) (hf : IsFloat32 hsl.hue) :
    (∃! i : ℕ, i < 6 ∧ (i : ℚ) ≤ Binary32.sectorArg hsl ∧
        Binary32.sectorArg hsl < (i : ℚ) + 1) ∧
      ∃ tr tg tb,
        sector (Binary32.sectorArg hsl) (Binary32.chroma hsl) (Binary32.secondary hsl) =
          some (tr, tg, tb) ∧
        (-(1 / 4096) ≤ Binary32.channel tr (Binary32.offset hsl) ∧
          Binary32.channel tr (Binary32.offset hsl) ≤ 255 + 1 / 4096) ∧
        (-(1 / 4096) ≤ Binary32.channel tg (Binary32.offset hsl) ∧
          Binary32.channel tg (Binary32.offset hsl) ≤ 255 + 1 / 4096) ∧
        (-(1 / 4096) ≤ Binary32.channel tb (Binary32.offset hsl) ∧
          Binary32.channel tb (Binary32.offset hsl) ≤ 255 + 1 / 4096) ∧
        (∃ r g b, toUInt8 (Binary32.channel tr (Binary32.offset hsl)) = some r ∧
          toUInt8 (Binary32.channel tg (Binary32.offset hsl)) = some g ∧
          toUInt8 (Binary32.channel tb (Binary32.offset hsl)) = some b ∧
          r ≤ 255 ∧ g ≤ 255 ∧ b ≤ 255) ∧
        ∃ c2, Binary32.setHSL o c hsl = some c2 := by
  obtain ⟨⟨tr, tg, tb⟩, hsec⟩ := sector32_isSome hd hf (Binary32.chroma hsl)
    (Binary32.secondary hsl)
  obtain ⟨er, eg, eb⟩ := sector_entries hsec
  have hr := entry32_range hd er
  have hg := entry32_range hd eg
  have hb := entry32_range hd eb
  have ur := toUInt8_of_near (by linarith [hr.1] : -1 < Binary32.channel tr (Binary32.offset hsl))
    (by linarith [hr.2] : Binary32.channel tr (Binary32.offset hsl) < 256)
  have ug := toUInt8_of_near (by linarith [hg.1] : -1 < Binary32.channel tg (Binary32.offset hsl))
    (by linarith [hg.2] : Binary32.channel tg (Binary32.offset hsl) < 256)
  have ub := toUInt8_of_near (by linarith [hb.1] : -1 < Binary32.channel tb (Binary32.offset hsl))
    (by linarith [hb.2] : Binary32.channel tb (Binary32.offset hsl) < 256)
  refine ⟨sector_index_unique (sectorArg_nonneg hd) (sectorArg_lt_six hd hf), tr, tg, tb, hsec,
    hr, hg, hb, ⟨_, _, _, ur, ug, ub, ?_, ?_, ?_⟩, _, setHSL32_eq o c hd hsec⟩
  · exact toNat_trunc_le_255 (by linarith [hr.2])
  · exact toNat_trunc_le_255 (by linarith [hg.2])
  · exact toNat_trunc_le_255 (by linarith [hb.2])

/-- C15 (amended), at HSL (200, 1/2, 1/4) from the initial state. -/
theorem convertHSLtoRGB32_defined_witness :
    ColorHSL_t.InDomain ⟨200, 1 / 2, 1 / 4⟩ ∧ IsFloat32 200 ∧
      ((∃! i : ℕ, i < 6 ∧ (i : ℚ) ≤ Binary32.sectorArg ⟨200, 1 / 2, 1 / 4⟩ ∧
          Binary32.sectorArg ⟨200, 1 / 2, 1 / 4⟩ < (i : ℚ) + 1) ∧
        ∃ tr tg tb,
          sector (Binary32.sectorArg ⟨200, 1 / 2, 1 / 4⟩) (Binary32.chroma ⟨200, 1 / 2, 1 / 4⟩)
            (Binary32.secondary ⟨200, 1 / 2, 1 / 4⟩) = some (tr, tg, tb) ∧
          (-(1 / 4096) ≤ Binary32.channel tr (Binary32.offset ⟨200, 1 / 2, 1 / 4⟩) ∧
            Binary32.channel tr (Binary32.offset ⟨200, 1 / 2, 1 / 4⟩) ≤ 255 + 1 / 4096) ∧
          (-(1 / 4096) ≤ Binary32.channel tg (Binary32.offset ⟨200, 1 / 2, 1 / 4⟩) ∧
            Binary32.channel tg (Binary32.offset ⟨200, 1 / 2, 1 / 4⟩) ≤ 255 + 1 / 4096) ∧
          (-(1 / 4096) ≤ Binary32.channel tb (Binary32.offset ⟨200, 1 / 2, 1 / 4⟩) ∧
            Binary32.channel tb (Binary32.offset ⟨200, 1 / 2, 1 / 4⟩) ≤ 255 + 1 / 4096) ∧
          (∃ r g b, toUInt8 (Binary32.channel tr (Binary32.offset ⟨200, 1 / 2, 1 / 4⟩)) = some r ∧
            toUInt8 (Binary32.channel tg (Binary32.offset ⟨200, 1 / 2, 1 / 4⟩)) = some g ∧
            toUInt8 (Binary32.channel tb (Binary32.offset ⟨200, 1 / 2, 1 / 4⟩)) = some b ∧
            r ≤ 255 ∧ g ≤ 255 ∧ b ≤ 255) ∧
          ∃ c2, Binary32.setHSL declaredOrder (Color.init declaredOrder) ⟨200, 1 / 2, 1 / 4⟩ =
            some c2) :=
  ⟨by decide!, by decide!,
    convertHSLtoRGB32_defined declaredOrder (Color.init declaredOrder) ⟨200, 1 / 2, 1 / 4⟩
      (by decide!) (by decide!)⟩

end ColorPalette
